import Mathlib

/-!
Shallow embedding of `src/hdrnet/ops/bilateral_slice.cu.cc` (bilateral slicing
operator: forward Slice kernel, GridGradient kernel, GuideGradient kernel, and
the two CUDA launchers).  Machine `float` arithmetic is embedded as exact
rational arithmetic (`ℚ`); `int` indices are embedded as `ℤ`.  Dense arrays are
embedded as total index functions; in-boundedness of every actual array read is
established separately.  The per-thread body of each `__global__` kernel is
embedded as a function from the output coordinate produced by the flat-index
factorization to the value written at that coordinate.
-/

/-- Modelled from the spec: `LerpWeight(sample_center, query)` from
`numerics.h` (the header is not among the sources).  Standard triangular
(linear) interpolation weight: value 1 at `query = sample_center`, linearly
decaying to 0 at distance 1, zero beyond. -/
def LerpWeight (sample_center query : ℚ) : ℚ :=
  max (1 - |query - sample_center|) 0

/-- Modelled from the spec: `SmoothedLerpWeight(sample_center, query)` from
`numerics.h` (not among the sources).  A C¹ analogue of the triangular weight
with the same support and endpoint values and vanishing derivative at the
edges of its support: `1 - smoothstep(d)` with `d = min |query - center| 1`
and `smoothstep(d) = 3d² - 2d³`. -/
def SmoothedLerpWeight (sample_center query : ℚ) : ℚ :=
  min |query - sample_center| 1 * min |query - sample_center| 1 *
    (2 * min |query - sample_center| 1 - 3) + 1

/-- Modelled from the spec: `SmoothedLerpWeightGrad(sample_center, query)`
from `numerics.h` (not among the sources).  Closed-form derivative of
`SmoothedLerpWeight` with respect to `query`. -/
def SmoothedLerpWeightGrad (sample_center query : ℚ) : ℚ :=
  if 1 ≤ |query - sample_center| then 0
  else 6 * (query - sample_center) * (|query - sample_center| - 1)

/-- Modelled from the spec: `MirrorBoundary(index, extent)` from `numerics.h`
(not among the sources).  Reflects an out-of-range integer index back into
`[0, extent)` by mirroring at the boundaries: `-1 ↦ 0`, `-2 ↦ 1`,
`extent ↦ extent - 1`. -/
def MirrorBoundary (index extent : ℤ) : ℤ :=
  if index % (2 * extent) < extent then index % (2 * extent)
  else 2 * extent - 1 - index % (2 * extent)

/-- Embedding of `std::clamp(v, lo, hi)` (for `lo ≤ hi`). -/
def stdClamp (v lo hi : ℤ) : ℤ :=
  max lo (min v hi)

/-- Fractional grid coordinates and base indices computed by
`BilateralSliceKernel` (`bilateral_slice.cu.cc` lines 62-69):
`(gxf, gyf, gzf, gx0, gy0, gz0)` for one output pixel `(x, y, b)`. -/
def sliceCoords (guide : ℤ → ℤ → ℤ → ℚ)
    (grid_depth grid_width grid_height guide_width guide_height : ℤ)
    (x y b : ℤ) : ℚ × ℚ × ℚ × ℤ × ℤ × ℤ :=
  (((x : ℚ) + 1/2) * ((grid_width : ℚ) / (guide_width : ℚ)),
   ((y : ℚ) + 1/2) * ((grid_height : ℚ) / (guide_height : ℚ)),
   guide x y b * (grid_depth : ℚ),
   ⌊((x : ℚ) + 1/2) * ((grid_width : ℚ) / (guide_width : ℚ)) - 1/2⌋,
   ⌊((y : ℚ) + 1/2) * ((grid_height : ℚ) / (guide_height : ℚ)) - 1/2⌋,
   ⌊guide x y b * (grid_depth : ℚ) - 1/2⌋)

/-- Per-thread body of `BilateralSliceKernel` (`bilateral_slice.cu.cc` lines
34-91): the value written to `out(c, x, y, b)`, i.e. the trilinear sample of
`grid` at `(gxf, gyf, gzf)` over the 2×2×2 neighborhood of base indices
`(gx0, gy0, gz0)`, each axis clamped into its valid range. -/
def BilateralSliceKernelAt (grid : ℤ → ℤ → ℤ → ℤ → ℤ → ℚ)
    (guide : ℤ → ℤ → ℤ → ℚ)
    (grid_depth grid_width grid_height guide_width guide_height : ℤ)
    (c x y b : ℤ) : ℚ :=
  match sliceCoords guide grid_depth grid_width grid_height guide_width
      guide_height x y b with
  | (gxf, gyf, gzf, gx0, gy0, gz0) =>
    ∑ gy ∈ Finset.Ico gy0 (gy0 + 2),
      ∑ gx ∈ Finset.Ico gx0 (gx0 + 2),
        ∑ gz ∈ Finset.Ico gz0 (gz0 + 2),
          LerpWeight ((gx : ℚ) + 1/2) gxf * LerpWeight ((gy : ℚ) + 1/2) gyf *
            SmoothedLerpWeight ((gz : ℚ) + 1/2) gzf *
            grid c (stdClamp gz 0 (grid_depth - 1))
              (stdClamp gx 0 (grid_width - 1))
              (stdClamp gy 0 (grid_height - 1)) b

/-- Per-thread body of `BilateralSliceGridGradKernel` (`bilateral_slice.cu.cc`
lines 93-161): the value written to `grid_vjp_out(gc, gz, gx, gy, b)`.  It
sums, over the spatial guide-pixel window obtained by inverting the forward
scale mapping with a one-cell margin, the weighted codomain tangent at the
mirrored pixel, with the depth weight forced to 1 at the clamped depth
boundaries. -/
def BilateralSliceGridGradKernelAt (guide : ℤ → ℤ → ℤ → ℚ)
    (codomain_tangent : ℤ → ℤ → ℤ → ℤ → ℚ)
    (grid_depth grid_width grid_height guide_width guide_height : ℤ)
    (gc gz gx gy b : ℤ) : ℚ :=
  ∑ y ∈ Finset.Ico
      ⌊(guide_height : ℚ) / (grid_height : ℚ) * ((gy : ℚ) + 1/2 - 1)⌋
      ⌈(guide_height : ℚ) / (grid_height : ℚ) * ((gy : ℚ) + 1/2 + 1)⌉,
    ∑ x ∈ Finset.Ico
        ⌊(guide_width : ℚ) / (grid_width : ℚ) * ((gx : ℚ) + 1/2 - 1)⌋
        ⌈(guide_width : ℚ) / (grid_width : ℚ) * ((gx : ℚ) + 1/2 + 1)⌉,
      (if (gz = 0 ∧ guide (MirrorBoundary x guide_width)
              (MirrorBoundary y guide_height) b * (grid_depth : ℚ) < 1/2) ∨
          (gz = grid_depth - 1 ∧ guide (MirrorBoundary x guide_width)
              (MirrorBoundary y guide_height) b * (grid_depth : ℚ) >
              (grid_depth : ℚ) - 1/2) then 1
       else SmoothedLerpWeight ((gz : ℚ) + 1/2)
         (guide (MirrorBoundary x guide_width) (MirrorBoundary y guide_height)
            b * (grid_depth : ℚ))) *
        LerpWeight ((gx : ℚ) + 1/2)
          (((x : ℚ) + 1/2) / ((guide_width : ℚ) / (grid_width : ℚ))) *
        LerpWeight ((gy : ℚ) + 1/2)
          (((y : ℚ) + 1/2) / ((guide_height : ℚ) / (grid_height : ℚ))) *
        codomain_tangent gc (MirrorBoundary x guide_width)
          (MirrorBoundary y guide_height) b

/-- Fractional grid coordinates and base indices computed by
`BilateralSliceGuideGradKernel` (`bilateral_slice.cu.cc` lines 188-196):
`(gxf, gyf, gzf, gx0, gy0, gz0)` for one guide pixel `(x, y, b)`. -/
def guideGradCoords (guide : ℤ → ℤ → ℤ → ℚ)
    (grid_depth grid_width grid_height guide_width guide_height : ℤ)
    (x y b : ℤ) : ℚ × ℚ × ℚ × ℤ × ℤ × ℤ :=
  (((x : ℚ) + 1/2) * ((grid_width : ℚ) / (guide_width : ℚ)),
   ((y : ℚ) + 1/2) * ((grid_height : ℚ) / (guide_height : ℚ)),
   guide x y b * (grid_depth : ℚ),
   ⌊((x : ℚ) + 1/2) * ((grid_width : ℚ) / (guide_width : ℚ)) - 1/2⌋,
   ⌊((y : ℚ) + 1/2) * ((grid_height : ℚ) / (guide_height : ℚ)) - 1/2⌋,
   ⌊guide x y b * (grid_depth : ℚ) - 1/2⌋)

/-- Per-thread body of `BilateralSliceGuideGradKernel` (`bilateral_slice.cu.cc`
lines 163-227): the value written to `guide_vjp_out(x, y, b)`.  For each
channel it computes `grid_sample`, the derivative of the forward trilinear
sample with respect to `gzf` times `∂gzf/∂guide = grid_depth`, and accumulates
`grid_sample * codomain_tangent(c, x, y, b)`. -/
def BilateralSliceGuideGradKernelAt (grid : ℤ → ℤ → ℤ → ℤ → ℤ → ℚ)
    (guide : ℤ → ℤ → ℤ → ℚ)
    (codomain_tangent : ℤ → ℤ → ℤ → ℤ → ℚ)
    (grid_channels grid_depth grid_width grid_height guide_width
      guide_height : ℤ)
    (x y b : ℤ) : ℚ :=
  match guideGradCoords guide grid_depth grid_width grid_height guide_width
      guide_height x y b with
  | (gxf, gyf, gzf, gx0, gy0, gz0) =>
    ∑ c ∈ Finset.Ico 0 grid_channels,
      (∑ gy ∈ Finset.Ico gy0 (gy0 + 2),
        ∑ gx ∈ Finset.Ico gx0 (gx0 + 2),
          ∑ gz ∈ Finset.Ico gz0 (gz0 + 2),
            LerpWeight ((gx : ℚ) + 1/2) gxf *
              LerpWeight ((gy : ℚ) + 1/2) gyf *
              ((grid_depth : ℚ) *
                SmoothedLerpWeightGrad ((gz : ℚ) + 1/2) gzf) *
              grid c (stdClamp gz 0 (grid_depth - 1))
                (stdClamp gx 0 (grid_width - 1))
                (stdClamp gy 0 (grid_height - 1)) b) *
        codomain_tangent c x y b

/-- Embedding of the device handle: the only observable used by the launchers
is `device.ok()`. -/
structure GpuDevice where
  ok : Bool

/-- Embedding of a 1-D kernel launch over `n` threads writing a flat output
buffer: element `i ∈ [0, n)` is written with `body i`, all other elements of
the buffer are untouched. -/
def runKernel1D (n : ℤ) (body : ℤ → ℚ) (buf : ℤ → ℚ) : ℤ → ℚ :=
  fun i => if 0 ≤ i ∧ i < n then body i else buf i

/-- Factorization of the flat thread index into `(c, x, y, b)` used by
`BilateralSliceKernel` (`bilateral_slice.cu.cc` lines 53-60), with strides
`output_x_stride = grid_channels`, `output_y_stride = x_stride * guide_width`,
`output_b_stride = y_stride * guide_height`. -/
def sliceDecompose (grid_channels guide_width guide_height idx : ℤ) :
    ℤ × ℤ × ℤ × ℤ :=
  (idx % grid_channels,
   (idx / grid_channels) % guide_width,
   (idx / (grid_channels * guide_width)) % guide_height,
   idx / (grid_channels * guide_width * guide_height))

/-- Re-flattening of a `(c, x, y, b)` coordinate with the strides of
`BilateralSliceKernel`, i.e. the layout of the output / codomain-tangent
arrays. -/
def sliceFlatten (grid_channels guide_width guide_height : ℤ)
    (p : ℤ × ℤ × ℤ × ℤ) : ℤ :=
  p.1 + grid_channels * p.2.1 + grid_channels * guide_width * p.2.2.1 +
    grid_channels * guide_width * guide_height * p.2.2.2

/-- Factorization of the flat thread index into `(gc, gz, gx, gy, b)` used by
`BilateralSliceGridGradKernel` (`bilateral_slice.cu.cc` lines 109-118), with
strides `grid_z_stride = grid_channels`, `grid_x_stride = z_stride * depth`,
`grid_y_stride = x_stride * grid_width`, `grid_b_stride = y_stride *
grid_height`. -/
def gridGradDecompose (grid_channels grid_depth grid_width grid_height
    idx : ℤ) : ℤ × ℤ × ℤ × ℤ × ℤ :=
  (idx % grid_channels,
   (idx / grid_channels) % grid_depth,
   (idx / (grid_channels * grid_depth)) % grid_width,
   (idx / (grid_channels * grid_depth * grid_width)) % grid_height,
   idx / (grid_channels * grid_depth * grid_width * grid_height))

/-- Re-flattening of a `(gc, gz, gx, gy, b)` coordinate with the strides of
`BilateralSliceGridGradKernel`, i.e. the layout of the grid arrays. -/
def gridGradFlatten (grid_channels grid_depth grid_width grid_height : ℤ)
    (p : ℤ × ℤ × ℤ × ℤ × ℤ) : ℤ :=
  p.1 + grid_channels * p.2.1 + grid_channels * grid_depth * p.2.2.1 +
    grid_channels * grid_depth * grid_width * p.2.2.2.1 +
    grid_channels * grid_depth * grid_width * grid_height * p.2.2.2.2

/-- Factorization of the flat thread index into `(x, y, b)` used by
`BilateralSliceGuideGradKernel` (`bilateral_slice.cu.cc` lines 180-186), with
strides `guide_y_stride = guide_width`, `guide_b_stride = y_stride *
guide_height`. -/
def guideGradDecompose (guide_width guide_height idx : ℤ) : ℤ × ℤ × ℤ :=
  (idx % guide_width,
   (idx / guide_width) % guide_height,
   idx / (guide_width * guide_height))

/-- Re-flattening of an `(x, y, b)` coordinate with the strides of
`BilateralSliceGuideGradKernel`, i.e. the layout of the guide arrays. -/
def guideGradFlatten (guide_width guide_height : ℤ) (p : ℤ × ℤ × ℤ) : ℤ :=
  p.1 + guide_width * p.2.1 + guide_width * guide_height * p.2.2

/-- Embedding of `hdrnet::BilateralSliceCudaLauncher` (`bilateral_slice.cu.cc`
lines 230-244): when the output element count is positive, launch the Slice
kernel over all output elements; otherwise do nothing.  Returns the updated
flat output buffer and `device.ok`. -/
def BilateralSliceCudaLauncher (device : GpuDevice)
    (grid : ℤ → ℤ → ℤ → ℤ → ℤ → ℚ) (guide : ℤ → ℤ → ℤ → ℚ)
    (grid_channels grid_depth grid_width grid_height guide_width guide_height
      batch : ℤ)
    (out : ℤ → ℚ) : (ℤ → ℚ) × Bool :=
  let out_count :=
    grid_channels * guide_width * guide_height * batch
  (if 0 < out_count then
     runKernel1D out_count
       (fun idx =>
         match sliceDecompose grid_channels guide_width guide_height idx with
         | (c, x, y, b) =>
           BilateralSliceKernelAt grid guide grid_depth grid_width grid_height
             guide_width guide_height c x y b)
       out
   else out,
   device.ok)

/-- Embedding of `hdrnet::BilateralSliceGradCudaLauncher`
(`bilateral_slice.cu.cc` lines 246-272): launches the grid-gradient kernel
when the grid-gradient output has a positive element count, then the
guide-gradient kernel when the guide-gradient output has a positive element
count.  Returns the updated flat buffers and `device.ok`. -/
def BilateralSliceGradCudaLauncher (device : GpuDevice)
    (grid : ℤ → ℤ → ℤ → ℤ → ℤ → ℚ) (guide : ℤ → ℤ → ℤ → ℚ)
    (codomain_tangent : ℤ → ℤ → ℤ → ℤ → ℚ)
    (grid_channels grid_depth grid_width grid_height guide_width guide_height
      batch : ℤ)
    (grid_vjp_out guide_vjp_out : ℤ → ℚ) : (ℤ → ℚ) × (ℤ → ℚ) × Bool :=
  let grid_vjp_count :=
    grid_channels * grid_depth * grid_width * grid_height * batch
  let guide_vjp_count := guide_width * guide_height * batch
  (if 0 < grid_vjp_count then
     runKernel1D grid_vjp_count
       (fun idx =>
         match gridGradDecompose grid_channels grid_depth grid_width
             grid_height idx with
         | (gc, gz, gx, gy, b) =>
           BilateralSliceGridGradKernelAt guide codomain_tangent grid_depth
             grid_width grid_height guide_width guide_height gc gz gx gy b)
       grid_vjp_out
   else grid_vjp_out,
   if 0 < guide_vjp_count then
     runKernel1D guide_vjp_count
       (fun idx =>
         match guideGradDecompose guide_width guide_height idx with
         | (x, y, b) =>
           BilateralSliceGuideGradKernelAt grid guide codomain_tangent
             grid_channels grid_depth grid_width grid_height guide_width
             guide_height x y b)
       guide_vjp_out
   else guide_vjp_out,
   device.ok)

section WeightLemmas

lemma lerpWeight_of_far {c q : ℚ} (h : 1 ≤ |q - c|) : LerpWeight c q = 0 :=
  max_eq_right (by linarith)

lemma lerpWeight_of_near {c q : ℚ} (h : |q - c| ≤ 1) :
    LerpWeight c q = 1 - |q - c| :=
  max_eq_left (by linarith)

lemma smoothed_of_far {c q : ℚ} (h : 1 ≤ |q - c|) :
    SmoothedLerpWeight c q = 0 := by
  unfold SmoothedLerpWeight
  rw [min_eq_right h]; ring

lemma smoothed_of_near {c q : ℚ} (h : |q - c| ≤ 1) :
    SmoothedLerpWeight c q = |q - c| * |q - c| * (2 * |q - c| - 3) + 1 := by
  unfold SmoothedLerpWeight
  rw [min_eq_left h]

lemma floor_half_le (v : ℚ) : ((⌊v - 1/2⌋ : ℤ) : ℚ) ≤ v - 1/2 :=
  Int.floor_le _

lemma lt_floor_half (v : ℚ) : v - 1/2 < ((⌊v - 1/2⌋ : ℤ) : ℚ) + 1 :=
  Int.lt_floor_add_one _

/-- The two linear taps bracketing `v` have weights summing to 1. -/
lemma lerpWeight_pair (v : ℚ) :
    LerpWeight ((⌊v - 1/2⌋ : ℚ) + 1/2) v +
      LerpWeight ((⌊v - 1/2⌋ : ℚ) + 3/2) v = 1 := by
  have h1 := floor_half_le v
  have h2 := lt_floor_half v
  rw [lerpWeight_of_near (by rw [abs_of_nonneg (by linarith)]; linarith),
    lerpWeight_of_near (by rw [abs_of_nonpos (by linarith)]; linarith),
    abs_of_nonneg (by linarith), abs_of_nonpos (by linarith)]
  ring

/-- The two smoothed taps bracketing `v` have weights summing to 1. -/
lemma smoothed_pair (v : ℚ) :
    SmoothedLerpWeight ((⌊v - 1/2⌋ : ℚ) + 1/2) v +
      SmoothedLerpWeight ((⌊v - 1/2⌋ : ℚ) + 3/2) v = 1 := by
  have h1 := floor_half_le v
  have h2 := lt_floor_half v
  rw [smoothed_of_near (by rw [abs_of_nonneg (by linarith)]; linarith),
    smoothed_of_near (by rw [abs_of_nonpos (by linarith)]; linarith),
    abs_of_nonneg (by linarith), abs_of_nonpos (by linarith)]
  ring

/-- Any integer tap outside the bracketing pair of `v` has zero linear
weight. -/
lemma lerpWeight_tap_vanish {v : ℚ} {t : ℤ}
    (h : t ∉ Finset.Ico ⌊v - 1/2⌋ (⌊v - 1/2⌋ + 2)) :
    LerpWeight ((t : ℚ) + 1/2) v = 0 := by
  rw [Finset.mem_Ico] at h
  push_neg at h
  have h1 := floor_half_le v
  have h2 := lt_floor_half v
  apply lerpWeight_of_far
  rcases lt_or_ge t ⌊v - 1/2⌋ with ht | ht
  · have ht' : (t : ℚ) + 1 ≤ (⌊v - 1/2⌋ : ℚ) := by exact_mod_cast ht
    rw [abs_of_nonneg (by linarith)]; linarith
  · have ht2 := h ht
    have ht' : (⌊v - 1/2⌋ : ℚ) + 2 ≤ (t : ℚ) := by exact_mod_cast ht2
    rw [abs_of_nonpos (by linarith)]; linarith

/-- Any integer tap outside the bracketing pair of `v` has zero smoothed
weight. -/
lemma smoothed_tap_vanish {v : ℚ} {t : ℤ}
    (h : t ∉ Finset.Ico ⌊v - 1/2⌋ (⌊v - 1/2⌋ + 2)) :
    SmoothedLerpWeight ((t : ℚ) + 1/2) v = 0 := by
  rw [Finset.mem_Ico] at h
  push_neg at h
  have h1 := floor_half_le v
  have h2 := lt_floor_half v
  apply smoothed_of_far
  rcases lt_or_ge t ⌊v - 1/2⌋ with ht | ht
  · have ht' : (t : ℚ) + 1 ≤ (⌊v - 1/2⌋ : ℚ) := by exact_mod_cast ht
    rw [abs_of_nonneg (by linarith)]; linarith
  · have ht2 := h ht
    have ht' : (⌊v - 1/2⌋ : ℚ) + 2 ≤ (t : ℚ) := by exact_mod_cast ht2
    rw [abs_of_nonpos (by linarith)]; linarith

end WeightLemmas

section IndexLemmas

lemma mirrorBoundary_nonneg {i e : ℤ} (he : 0 < e) :
    0 ≤ MirrorBoundary i e := by
  unfold MirrorBoundary
  have h0 : 0 ≤ i % (2 * e) := Int.emod_nonneg i (by omega)
  have h1 : i % (2 * e) < 2 * e := Int.emod_lt_of_pos i (by omega)
  split <;> omega

lemma mirrorBoundary_lt {i e : ℤ} (he : 0 < e) : MirrorBoundary i e < e := by
  unfold MirrorBoundary
  have h0 : 0 ≤ i % (2 * e) := Int.emod_nonneg i (by omega)
  have h1 : i % (2 * e) < 2 * e := Int.emod_lt_of_pos i (by omega)
  split <;> omega

lemma mirrorBoundary_of_mem {i e : ℤ} (h0 : 0 ≤ i) (h1 : i < e) :
    MirrorBoundary i e = i := by
  unfold MirrorBoundary
  rw [Int.emod_eq_of_lt h0 (by omega), if_pos h1]

lemma mirrorBoundary_of_neg {i e : ℤ} (h0 : -e ≤ i) (h1 : i < 0) :
    MirrorBoundary i e = -1 - i := by
  have key : i % (2 * e) = i + 2 * e := by
    have ha : (i + 2 * e * 1) % (2 * e) = i % (2 * e) :=
      Int.add_mul_emod_self_left i (2 * e) 1
    have hb : (i + 2 * e * 1) % (2 * e) = i + 2 * e := by
      rw [Int.emod_eq_of_lt (by omega) (by omega)]; ring
    omega
  unfold MirrorBoundary
  rw [key, if_neg (by omega)]
  ring

lemma mirrorBoundary_of_high {i e : ℤ} (h0 : e ≤ i) (h1 : i < 2 * e) :
    MirrorBoundary i e = 2 * e - 1 - i := by
  unfold MirrorBoundary
  rw [Int.emod_eq_of_lt (by omega) h1, if_neg (by omega)]

lemma stdClamp_le {v lo hi : ℤ} (h : lo ≤ hi) : stdClamp v lo hi ≤ hi :=
  max_le h (min_le_right _ _)

lemma stdClamp_ge (v lo hi : ℤ) : lo ≤ stdClamp v lo hi :=
  le_max_left _ _

lemma stdClamp_of_le_lo {v lo hi : ℤ} (h : v ≤ lo) : stdClamp v lo hi = lo :=
  max_eq_left (le_trans (min_le_left _ _) h)

lemma stdClamp_of_mem {v lo hi : ℤ} (h0 : lo ≤ v) (h1 : v ≤ hi) :
    stdClamp v lo hi = v := by
  unfold stdClamp
  rw [min_eq_left h1, max_eq_right h0]

lemma stdClamp_of_hi_le {v lo hi : ℤ} (h0 : lo ≤ hi) (h1 : hi ≤ v) :
    stdClamp v lo hi = hi := by
  unfold stdClamp
  rw [min_eq_right h1, max_eq_right h0]

lemma sum_Ico_two (f : ℤ → ℚ) (a : ℤ) :
    ∑ i ∈ Finset.Ico a (a + 2), f i = f a + f (a + 1) := by
  have h : Finset.Ico a (a + 2) = {a, a + 1} := by
    ext i
    simp only [Finset.mem_Ico, Finset.mem_insert, Finset.mem_singleton]
    omega
  rw [h, Finset.sum_insert (by simp), Finset.sum_singleton]

end IndexLemmas

section FlatIndex

lemma flat_emod {c C t : ℤ} (h0 : 0 ≤ c) (h1 : c < C) : (c + C * t) % C = c := by
  rw [Int.add_mul_emod_self_left, Int.emod_eq_of_lt h0 h1]

lemma flat_ediv {c C t : ℤ} (h0 : 0 ≤ c) (h1 : c < C) : (c + C * t) / C = t := by
  rw [Int.add_mul_ediv_left c t (by omega : C ≠ 0),
    Int.ediv_eq_zero_of_lt h0 h1, zero_add]

lemma flat_nonneg {c C t : ℤ} (hc0 : 0 ≤ c) (ht0 : 0 ≤ t) (hC : 0 < C) :
    0 ≤ c + C * t := by
  have : 0 ≤ C * t := mul_nonneg (by omega) ht0
  omega

lemma flat_lt {c C t T : ℤ} (hc1 : c < C) (ht1 : t < T) (hC : 0 < C) :
    c + C * t < C * T := by
  have h1 : C * (t + 1) ≤ C * T :=
    mul_le_mul_of_nonneg_left (by omega) (by omega)
  nlinarith

lemma ediv_mul_eq_ediv_ediv {a b c : ℤ} (hb : 0 < b) (hc : 0 < c) :
    a / (b * c) = a / b / c := by
  have e1 := Int.emod_add_ediv a b
  have e2 := Int.emod_add_ediv (a / b) c
  have hm1 : 0 ≤ a % b := Int.emod_nonneg a (by omega)
  have hm1' : a % b < b := Int.emod_lt_of_pos a hb
  have hm2 : 0 ≤ (a / b) % c := Int.emod_nonneg _ (by omega)
  have hm2' : (a / b) % c < c := Int.emod_lt_of_pos _ hc
  have key : a = (a % b + b * ((a / b) % c)) + (b * c) * (a / b / c) := by
    linear_combination -e1 - b * e2
  conv_lhs => rw [key]
  rw [flat_ediv (flat_nonneg hm1 hm2 hb) (flat_lt hm1' hm2' hb)]

end FlatIndex

section FactorizationLemmas

lemma slice_flatten_decompose {C W H : ℤ} (hC : 0 < C) (hW : 0 < W)
    (hH : 0 < H) (idx : ℤ) :
    sliceFlatten C W H (sliceDecompose C W H idx) = idx := by
  unfold sliceFlatten sliceDecompose
  dsimp only
  rw [ediv_mul_eq_ediv_ediv hC hW,
    ediv_mul_eq_ediv_ediv (by positivity) hH, ediv_mul_eq_ediv_ediv hC hW]
  have e1 := Int.emod_add_ediv idx C
  have e2 := Int.emod_add_ediv (idx / C) W
  have e3 := Int.emod_add_ediv (idx / C / W) H
  linear_combination e1 + C * e2 + C * W * e3

lemma slice_decompose_flatten {C W H : ℤ} (hC : 0 < C) (hW : 0 < W)
    (hH : 0 < H) {c x y b : ℤ} (hc0 : 0 ≤ c) (hc1 : c < C) (hx0 : 0 ≤ x)
    (hx1 : x < W) (hy0 : 0 ≤ y) (hy1 : y < H) :
    sliceDecompose C W H (sliceFlatten C W H (c, x, y, b)) = (c, x, y, b) := by
  unfold sliceFlatten sliceDecompose
  dsimp only
  have hkey : c + C * x + C * W * y + C * W * H * b =
      c + C * (x + W * (y + H * b)) := by ring
  rw [hkey, flat_emod hc0 hc1, flat_ediv hc0 hc1,
    ediv_mul_eq_ediv_ediv hC hW, ediv_mul_eq_ediv_ediv (by positivity) hH,
    ediv_mul_eq_ediv_ediv hC hW, flat_ediv hc0 hc1, flat_emod hx0 hx1,
    flat_ediv hx0 hx1, flat_emod hy0 hy1, flat_ediv hy0 hy1]

lemma slice_decompose_range {C W H B : ℤ} (hC : 0 < C) (hW : 0 < W)
    (hH : 0 < H) (hB : 0 < B) {idx : ℤ} (h0 : 0 ≤ idx)
    (h1 : idx < C * W * H * B) :
    0 ≤ (sliceDecompose C W H idx).1 ∧ (sliceDecompose C W H idx).1 < C ∧
    0 ≤ (sliceDecompose C W H idx).2.1 ∧ (sliceDecompose C W H idx).2.1 < W ∧
    0 ≤ (sliceDecompose C W H idx).2.2.1 ∧
    (sliceDecompose C W H idx).2.2.1 < H ∧
    0 ≤ (sliceDecompose C W H idx).2.2.2 ∧
    (sliceDecompose C W H idx).2.2.2 < B := by
  unfold sliceDecompose
  dsimp only
  refine ⟨Int.emod_nonneg idx (by omega), Int.emod_lt_of_pos idx hC,
    Int.emod_nonneg _ (by omega), Int.emod_lt_of_pos _ hW,
    Int.emod_nonneg _ (by omega), Int.emod_lt_of_pos _ hH,
    Int.ediv_nonneg h0 (by positivity), ?_⟩
  rw [Int.ediv_lt_iff_lt_mul (by positivity)]
  linarith

lemma gridGrad_flatten_decompose {C D GX GY : ℤ} (hC : 0 < C) (hD : 0 < D)
    (hGX : 0 < GX) (hGY : 0 < GY) (idx : ℤ) :
    gridGradFlatten C D GX GY (gridGradDecompose C D GX GY idx) = idx := by
  unfold gridGradFlatten gridGradDecompose
  dsimp only
  rw [ediv_mul_eq_ediv_ediv hC hD,
    ediv_mul_eq_ediv_ediv (by positivity) hGX, ediv_mul_eq_ediv_ediv hC hD,
    ediv_mul_eq_ediv_ediv (by positivity) hGY,
    ediv_mul_eq_ediv_ediv (by positivity) hGX, ediv_mul_eq_ediv_ediv hC hD]
  have e1 := Int.emod_add_ediv idx C
  have e2 := Int.emod_add_ediv (idx / C) D
  have e3 := Int.emod_add_ediv (idx / C / D) GX
  have e4 := Int.emod_add_ediv (idx / C / D / GX) GY
  linear_combination e1 + C * e2 + C * D * e3 + C * D * GX * e4

lemma gridGrad_decompose_flatten {C D GX GY : ℤ} (hC : 0 < C) (hD : 0 < D)
    (hGX : 0 < GX) (hGY : 0 < GY) {gc gz gx gy b : ℤ} (hc0 : 0 ≤ gc)
    (hc1 : gc < C) (hz0 : 0 ≤ gz) (hz1 : gz < D) (hx0 : 0 ≤ gx)
    (hx1 : gx < GX) (hy0 : 0 ≤ gy) (hy1 : gy < GY) :
    gridGradDecompose C D GX GY (gridGradFlatten C D GX GY (gc, gz, gx, gy, b))
      = (gc, gz, gx, gy, b) := by
  unfold gridGradFlatten gridGradDecompose
  dsimp only
  have hkey : gc + C * gz + C * D * gx + C * D * GX * gy +
      C * D * GX * GY * b = gc + C * (gz + D * (gx + GX * (gy + GY * b))) := by
    ring
  rw [hkey, flat_emod hc0 hc1, flat_ediv hc0 hc1,
    ediv_mul_eq_ediv_ediv hC hD, ediv_mul_eq_ediv_ediv (by positivity) hGX,
    ediv_mul_eq_ediv_ediv hC hD, ediv_mul_eq_ediv_ediv (by positivity) hGY,
    ediv_mul_eq_ediv_ediv (by positivity) hGX, ediv_mul_eq_ediv_ediv hC hD,
    flat_ediv hc0 hc1, flat_emod hz0 hz1, flat_ediv hz0 hz1,
    flat_emod hx0 hx1, flat_ediv hx0 hx1, flat_emod hy0 hy1,
    flat_ediv hy0 hy1]

lemma gridGrad_decompose_range {C D GX GY B : ℤ} (hC : 0 < C) (hD : 0 < D)
    (hGX : 0 < GX) (hGY : 0 < GY) (hB : 0 < B) {idx : ℤ} (h0 : 0 ≤ idx)
    (h1 : idx < C * D * GX * GY * B) :
    0 ≤ (gridGradDecompose C D GX GY idx).1 ∧
    (gridGradDecompose C D GX GY idx).1 < C ∧
    0 ≤ (gridGradDecompose C D GX GY idx).2.1 ∧
    (gridGradDecompose C D GX GY idx).2.1 < D ∧
    0 ≤ (gridGradDecompose C D GX GY idx).2.2.1 ∧
    (gridGradDecompose C D GX GY idx).2.2.1 < GX ∧
    0 ≤ (gridGradDecompose C D GX GY idx).2.2.2.1 ∧
    (gridGradDecompose C D GX GY idx).2.2.2.1 < GY ∧
    0 ≤ (gridGradDecompose C D GX GY idx).2.2.2.2 ∧
    (gridGradDecompose C D GX GY idx).2.2.2.2 < B := by
  unfold gridGradDecompose
  dsimp only
  refine ⟨Int.emod_nonneg idx (by omega), Int.emod_lt_of_pos idx hC,
    Int.emod_nonneg _ (by omega), Int.emod_lt_of_pos _ hD,
    Int.emod_nonneg _ (by omega), Int.emod_lt_of_pos _ hGX,
    Int.emod_nonneg _ (by omega), Int.emod_lt_of_pos _ hGY,
    Int.ediv_nonneg h0 (by positivity), ?_⟩
  rw [Int.ediv_lt_iff_lt_mul (by positivity)]
  linarith

lemma guideGrad_flatten_decompose {W H : ℤ} (hW : 0 < W) (hH : 0 < H)
    (idx : ℤ) :
    guideGradFlatten W H (guideGradDecompose W H idx) = idx := by
  unfold guideGradFlatten guideGradDecompose
  dsimp only
  rw [ediv_mul_eq_ediv_ediv hW hH]
  have e1 := Int.emod_add_ediv idx W
  have e2 := Int.emod_add_ediv (idx / W) H
  linear_combination e1 + W * e2

lemma guideGrad_decompose_flatten {W H : ℤ} (hW : 0 < W) (hH : 0 < H)
    {x y b : ℤ} (hx0 : 0 ≤ x) (hx1 : x < W) (hy0 : 0 ≤ y) (hy1 : y < H) :
    guideGradDecompose W H (guideGradFlatten W H (x, y, b)) = (x, y, b) := by
  unfold guideGradFlatten guideGradDecompose
  dsimp only
  have hkey : x + W * y + W * H * b = x + W * (y + H * b) := by ring
  rw [hkey, flat_emod hx0 hx1, flat_ediv hx0 hx1,
    ediv_mul_eq_ediv_ediv hW hH, flat_ediv hx0 hx1, flat_emod hy0 hy1,
    flat_ediv hy0 hy1]

lemma guideGrad_decompose_range {W H B : ℤ} (hW : 0 < W) (hH : 0 < H)
    (hB : 0 < B) {idx : ℤ} (h0 : 0 ≤ idx) (h1 : idx < W * H * B) :
    0 ≤ (guideGradDecompose W H idx).1 ∧ (guideGradDecompose W H idx).1 < W ∧
    0 ≤ (guideGradDecompose W H idx).2.1 ∧
    (guideGradDecompose W H idx).2.1 < H ∧
    0 ≤ (guideGradDecompose W H idx).2.2 ∧
    (guideGradDecompose W H idx).2.2 < B := by
  unfold guideGradDecompose
  dsimp only
  refine ⟨Int.emod_nonneg idx (by omega), Int.emod_lt_of_pos idx hW,
    Int.emod_nonneg _ (by omega), Int.emod_lt_of_pos _ hH,
    Int.ediv_nonneg h0 (by positivity), ?_⟩
  rw [Int.ediv_lt_iff_lt_mul (by positivity)]
  linarith

/-- C9.  In each of the three kernels, factoring the flat task index `idx`
into multi-axis coordinates is a bijection between `[0, element count)` and
the output coordinate space: decomposing and re-flattening with the same
strides is the identity in both directions, decomposition lands in the
coordinate ranges, and distinct flat indices give distinct coordinate
tuples. -/
theorem C9_flat_index_factorization_bijective (C D GX GY W H B : ℤ)
    (hC : 0 < C) (hD : 0 < D) (hGX : 0 < GX) (hGY : 0 < GY) (hW : 0 < W)
    (hH : 0 < H) (hB : 0 < B) :
    (∀ idx : ℤ, 0 ≤ idx → idx < C * W * H * B →
      sliceFlatten C W H (sliceDecompose C W H idx) = idx ∧
      0 ≤ (sliceDecompose C W H idx).1 ∧ (sliceDecompose C W H idx).1 < C ∧
      0 ≤ (sliceDecompose C W H idx).2.1 ∧
      (sliceDecompose C W H idx).2.1 < W ∧
      0 ≤ (sliceDecompose C W H idx).2.2.1 ∧
      (sliceDecompose C W H idx).2.2.1 < H ∧
      0 ≤ (sliceDecompose C W H idx).2.2.2 ∧
      (sliceDecompose C W H idx).2.2.2 < B) ∧
    (∀ c x y b : ℤ, 0 ≤ c → c < C → 0 ≤ x → x < W → 0 ≤ y → y < H →
      sliceDecompose C W H (sliceFlatten C W H (c, x, y, b)) = (c, x, y, b)) ∧
    (∀ idx idy : ℤ, 0 ≤ idx → idx < C * W * H * B → 0 ≤ idy →
      idy < C * W * H * B →
      sliceDecompose C W H idx = sliceDecompose C W H idy → idx = idy) ∧
    (∀ idx : ℤ, 0 ≤ idx → idx < C * D * GX * GY * B →
      gridGradFlatten C D GX GY (gridGradDecompose C D GX GY idx) = idx ∧
      0 ≤ (gridGradDecompose C D GX GY idx).1 ∧
      (gridGradDecompose C D GX GY idx).1 < C ∧
      0 ≤ (gridGradDecompose C D GX GY idx).2.1 ∧
      (gridGradDecompose C D GX GY idx).2.1 < D ∧
      0 ≤ (gridGradDecompose C D GX GY idx).2.2.1 ∧
      (gridGradDecompose C D GX GY idx).2.2.1 < GX ∧
      0 ≤ (gridGradDecompose C D GX GY idx).2.2.2.1 ∧
      (gridGradDecompose C D GX GY idx).2.2.2.1 < GY ∧
      0 ≤ (gridGradDecompose C D GX GY idx).2.2.2.2 ∧
      (gridGradDecompose C D GX GY idx).2.2.2.2 < B) ∧
    (∀ gc gz gx gy b : ℤ, 0 ≤ gc → gc < C → 0 ≤ gz → gz < D → 0 ≤ gx →
      gx < GX → 0 ≤ gy → gy < GY →
      gridGradDecompose C D GX GY
        (gridGradFlatten C D GX GY (gc, gz, gx, gy, b)) =
        (gc, gz, gx, gy, b)) ∧
    (∀ idx idy : ℤ, 0 ≤ idx → idx < C * D * GX * GY * B → 0 ≤ idy →
      idy < C * D * GX * GY * B →
      gridGradDecompose C D GX GY idx = gridGradDecompose C D GX GY idy →
      idx = idy) ∧
    (∀ idx : ℤ, 0 ≤ idx → idx < W * H * B →
      guideGradFlatten W H (guideGradDecompose W H idx) = idx ∧
      0 ≤ (guideGradDecompose W H idx).1 ∧
      (guideGradDecompose W H idx).1 < W ∧
      0 ≤ (guideGradDecompose W H idx).2.1 ∧
      (guideGradDecompose W H idx).2.1 < H ∧
      0 ≤ (guideGradDecompose W H idx).2.2 ∧
      (guideGradDecompose W H idx).2.2 < B) ∧
    (∀ x y b : ℤ, 0 ≤ x → x < W → 0 ≤ y → y < H →
      guideGradDecompose W H (guideGradFlatten W H (x, y, b)) = (x, y, b)) ∧
    (∀ idx idy : ℤ, 0 ≤ idx → idx < W * H * B → 0 ≤ idy → idy < W * H * B →
      guideGradDecompose W H idx = guideGradDecompose W H idy →
      idx = idy) := by
  refine ⟨fun idx h0 h1 => ⟨slice_flatten_decompose hC hW hH idx,
      slice_decompose_range hC hW hH hB h0 h1⟩,
    fun c x y b hc0 hc1 hx0 hx1 hy0 hy1 =>
      slice_decompose_flatten hC hW hH hc0 hc1 hx0 hx1 hy0 hy1,
    fun idx idy h0 h1 h2 h3 heq => ?_,
    fun idx h0 h1 => ⟨gridGrad_flatten_decompose hC hD hGX hGY idx,
      gridGrad_decompose_range hC hD hGX hGY hB h0 h1⟩,
    fun gc gz gx gy b hc0 hc1 hz0 hz1 hx0 hx1 hy0 hy1 =>
      gridGrad_decompose_flatten hC hD hGX hGY hc0 hc1 hz0 hz1 hx0 hx1 hy0
        hy1,
    fun idx idy h0 h1 h2 h3 heq => ?_,
    fun idx h0 h1 => ⟨guideGrad_flatten_decompose hW hH idx,
      guideGrad_decompose_range hW hH hB h0 h1⟩,
    fun x y b hx0 hx1 hy0 hy1 =>
      guideGrad_decompose_flatten hW hH hx0 hx1 hy0 hy1,
    fun idx idy h0 h1 h2 h3 heq => ?_⟩
  · rw [← slice_flatten_decompose hC hW hH idx, heq,
      slice_flatten_decompose hC hW hH idy]
  · rw [← gridGrad_flatten_decompose hC hD hGX hGY idx, heq,
      gridGrad_flatten_decompose hC hD hGX hGY idy]
  · rw [← guideGrad_flatten_decompose hW hH idx, heq,
      guideGrad_flatten_decompose hW hH idy]

/-- Witness for C9 at concrete extents and a concrete index. -/
theorem C9_flat_index_factorization_bijective_witness :
    (0 : ℤ) < 2 ∧ (0 : ℤ) < 3 ∧ (0 : ℤ) < 1 ∧
    sliceFlatten 2 3 2 (sliceDecompose 2 3 2 (17 : ℤ)) = 17 := by
  refine ⟨by norm_num, by norm_num, by norm_num, ?_⟩
  exact ((C9_flat_index_factorization_bijective 2 3 2 2 3 2 2 (by norm_num)
    (by norm_num) (by norm_num) (by norm_num) (by norm_num) (by norm_num)
    (by norm_num)).1 17 (by norm_num) (by norm_num)).1

end FactorizationLemmas

section LauncherTheorems

/-- C7.  In `BilateralSliceCudaLauncher` a zero-element output skips the
launch, leaves the output buffer untouched, and the launcher still returns
`device.ok`; in `BilateralSliceGradCudaLauncher` the same holds independently
for each of the two dispatched kernels. -/
theorem C7_zero_size_launch_noop (device : GpuDevice)
    (grid : ℤ → ℤ → ℤ → ℤ → ℤ → ℚ) (guide : ℤ → ℤ → ℤ → ℚ)
    (codomain_tangent : ℤ → ℤ → ℤ → ℤ → ℚ)
    (C D GX GY W H B : ℤ) (out grid_vjp_out guide_vjp_out : ℤ → ℚ) :
    (C * W * H * B = 0 →
      (BilateralSliceCudaLauncher device grid guide C D GX GY W H B out).1 =
        out) ∧
    (BilateralSliceCudaLauncher device grid guide C D GX GY W H B out).2 =
      device.ok ∧
    (C * D * GX * GY * B = 0 →
      (BilateralSliceGradCudaLauncher device grid guide codomain_tangent
        C D GX GY W H B grid_vjp_out guide_vjp_out).1 = grid_vjp_out) ∧
    (W * H * B = 0 →
      (BilateralSliceGradCudaLauncher device grid guide codomain_tangent
        C D GX GY W H B grid_vjp_out guide_vjp_out).2.1 = guide_vjp_out) ∧
    (BilateralSliceGradCudaLauncher device grid guide codomain_tangent
      C D GX GY W H B grid_vjp_out guide_vjp_out).2.2 = device.ok := by
  refine ⟨fun h => ?_, rfl, fun h => ?_, fun h => ?_, rfl⟩
  · unfold BilateralSliceCudaLauncher
    rw [h]
    norm_num
  · unfold BilateralSliceGradCudaLauncher
    rw [h]
    norm_num
  · unfold BilateralSliceGradCudaLauncher
    rw [h]
    norm_num

/-- Witness for C7 at concrete zero shapes. -/
theorem C7_zero_size_launch_noop_witness :
    (BilateralSliceCudaLauncher ⟨true⟩ (fun _ _ _ _ _ => 0) (fun _ _ _ => 0)
      0 1 1 1 2 2 1 (fun _ => 5)).1 = (fun _ => (5 : ℚ)) ∧
    (BilateralSliceGradCudaLauncher ⟨true⟩ (fun _ _ _ _ _ => 0)
      (fun _ _ _ => 0) (fun _ _ _ _ => 0) 0 1 1 1 0 2 1 (fun _ => 7)
      (fun _ => 9)).1 = (fun _ => (7 : ℚ)) ∧
    (BilateralSliceGradCudaLauncher ⟨true⟩ (fun _ _ _ _ _ => 0)
      (fun _ _ _ => 0) (fun _ _ _ _ => 0) 0 1 1 1 0 2 1 (fun _ => 7)
      (fun _ => 9)).2.1 = (fun _ => (9 : ℚ)) := by
  refine ⟨?_, ?_, ?_⟩
  · exact (C7_zero_size_launch_noop ⟨true⟩ (fun _ _ _ _ _ => 0)
      (fun _ _ _ => 0) (fun _ _ _ _ => 0) 0 1 1 1 2 2 1 (fun _ => 5)
      (fun _ => 0) (fun _ => 0)).1 (by norm_num)
  · exact (C7_zero_size_launch_noop ⟨true⟩ (fun _ _ _ _ _ => 0)
      (fun _ _ _ => 0) (fun _ _ _ _ => 0) 0 1 1 1 0 2 1 (fun _ => 0)
      (fun _ => 7) (fun _ => 9)).2.2.1 (by norm_num)
  · exact (C7_zero_size_launch_noop ⟨true⟩ (fun _ _ _ _ _ => 0)
      (fun _ _ _ => 0) (fun _ _ _ _ => 0) 0 1 1 1 0 2 1 (fun _ => 0)
      (fun _ => 7) (fun _ => 9)).2.2.2.1 (by norm_num)

end LauncherTheorems

section CoordTheorems

/-- C8.  For every guide coordinate `(x, y, b)` the intermediate quantities
`gxf, gyf, gzf, gx0, gy0, gz0` computed by the GuideGradient kernel are
identical to those computed by the Slice kernel on the same inputs, and for
every tap of the 2×2×2 neighborhood both kernels clamp the three axis indices
to the same grid index triple. -/
theorem C8_guidegrad_coords_match_slice (guide : ℤ → ℤ → ℤ → ℚ)
    (grid_depth grid_width grid_height guide_width guide_height : ℤ)
    (x y b : ℤ) :
    guideGradCoords guide grid_depth grid_width grid_height guide_width
        guide_height x y b =
      sliceCoords guide grid_depth grid_width grid_height guide_width
        guide_height x y b ∧
    (∀ gz gx gy : ℤ,
      (stdClamp gz 0 (grid_depth - 1), stdClamp gx 0 (grid_width - 1),
        stdClamp gy 0 (grid_height - 1)) =
      (stdClamp gz 0 (grid_depth - 1), stdClamp gx 0 (grid_width - 1),
        stdClamp gy 0 (grid_height - 1))) :=
  ⟨rfl, fun _ _ _ => rfl⟩

/-- Output value of Slice as the spec states it (claim C1): a single sum over
the 2×2×2 neighborhood `{gx0,gx0+1} × {gy0,gy0+1} × {gz0,gz0+1}` with
`gxf = (x+0.5)·GX/W`, `gyf = (y+0.5)·GY/H`, `gzf = Guide[x,y,b]·D`, each axis
index clamped into its valid range. -/
def sliceSpecValue (grid : ℤ → ℤ → ℤ → ℤ → ℤ → ℚ) (guide : ℤ → ℤ → ℤ → ℚ)
    (D GX GY W H : ℤ) (c x y b : ℤ) : ℚ :=
  ∑ t ∈ Finset.Ico ⌊((x : ℚ) + 1/2) * (GX : ℚ) / (W : ℚ) - 1/2⌋
        (⌊((x : ℚ) + 1/2) * (GX : ℚ) / (W : ℚ) - 1/2⌋ + 2) ×ˢ
      (Finset.Ico ⌊((y : ℚ) + 1/2) * (GY : ℚ) / (H : ℚ) - 1/2⌋
         (⌊((y : ℚ) + 1/2) * (GY : ℚ) / (H : ℚ) - 1/2⌋ + 2) ×ˢ
       Finset.Ico ⌊guide x y b * (D : ℚ) - 1/2⌋
         (⌊guide x y b * (D : ℚ) - 1/2⌋ + 2)),
    LerpWeight ((t.1 : ℚ) + 1/2) (((x : ℚ) + 1/2) * (GX : ℚ) / (W : ℚ)) *
      LerpWeight ((t.2.1 : ℚ) + 1/2)
        (((y : ℚ) + 1/2) * (GY : ℚ) / (H : ℚ)) *
      SmoothedLerpWeight ((t.2.2 : ℚ) + 1/2) (guide x y b * (D : ℚ)) *
      grid c (stdClamp t.2.2 0 (D - 1)) (stdClamp t.1 0 (GX - 1))
        (stdClamp t.2.1 0 (GY - 1)) b

lemma sum_pair_product (s t : Finset ℤ) (f : ℤ → ℤ → ℚ) :
    ∑ p ∈ s ×ˢ t, f p.1 p.2 = ∑ a ∈ s, ∑ b ∈ t, f a b :=
  Finset.sum_product s t fun p => f p.1 p.2

lemma sum_triple_product (s t u : Finset ℤ) (f : ℤ → ℤ → ℤ → ℚ) :
    ∑ p ∈ s ×ˢ (t ×ˢ u), f p.1 p.2.1 p.2.2 =
      ∑ a ∈ s, ∑ b ∈ t, ∑ c ∈ u, f a b c := by
  rw [Finset.sum_product s (t ×ˢ u) fun p => f p.1 p.2.1 p.2.2]
  exact Finset.sum_congr rfl fun a _ => Finset.sum_product t u fun q => f a q.1 q.2

/-- C1.  The Slice kernel writes exactly the clamped 2×2×2 interpolation sum
stated by the spec. -/
theorem C1_slice_writes_spec_sum (grid : ℤ → ℤ → ℤ → ℤ → ℤ → ℚ)
    (guide : ℤ → ℤ → ℤ → ℚ) (D GX GY W H : ℤ) (c x y b : ℤ) :
    BilateralSliceKernelAt grid guide D GX GY W H c x y b =
      sliceSpecValue grid guide D GX GY W H c x y b := by
  unfold BilateralSliceKernelAt sliceCoords sliceSpecValue
  dsimp only
  rw [sum_triple_product _ _ _ fun gx gy gz =>
    LerpWeight ((gx : ℚ) + 1/2) (((x : ℚ) + 1/2) * (GX : ℚ) / (W : ℚ)) *
      LerpWeight ((gy : ℚ) + 1/2) (((y : ℚ) + 1/2) * (GY : ℚ) / (H : ℚ)) *
      SmoothedLerpWeight ((gz : ℚ) + 1/2) (guide x y b * (D : ℚ)) *
      grid c (stdClamp gz 0 (D - 1)) (stdClamp gx 0 (GX - 1))
        (stdClamp gy 0 (GY - 1)) b]
  have hgx : ((x : ℚ) + 1/2) * ((GX : ℚ) / (W : ℚ)) =
      ((x : ℚ) + 1/2) * (GX : ℚ) / (W : ℚ) := by ring
  have hgy : ((y : ℚ) + 1/2) * ((GY : ℚ) / (H : ℚ)) =
      ((y : ℚ) + 1/2) * (GY : ℚ) / (H : ℚ) := by ring
  rw [hgx, hgy, Finset.sum_comm]

/-- Grid-gradient value as the spec states it (claim C2): a single sum over
the window `x ∈ [⌊scale_x(gx-0.5)⌋, ⌈scale_x(gx+1.5)⌉) × y ∈ (analogous)`
with `scale_x = W/GX`, `scale_y = H/GY`, of `wz·wx·wy·CodomainTangent` at the
mirrored pixel, with `wz` forced to 1 at the clamped depth boundaries. -/
def gridGradSpecValue (guide : ℤ → ℤ → ℤ → ℚ)
    (codomain_tangent : ℤ → ℤ → ℤ → ℤ → ℚ) (D GX GY W H : ℤ)
    (gc gz gx gy b : ℤ) : ℚ :=
  ∑ p ∈ Finset.Ico ⌊(W : ℚ) / (GX : ℚ) * ((gx : ℚ) + 1/2 - 1)⌋
        ⌈(W : ℚ) / (GX : ℚ) * ((gx : ℚ) + 1/2 + 1)⌉ ×ˢ
      Finset.Ico ⌊(H : ℚ) / (GY : ℚ) * ((gy : ℚ) + 1/2 - 1)⌋
        ⌈(H : ℚ) / (GY : ℚ) * ((gy : ℚ) + 1/2 + 1)⌉,
    (if (gz = 0 ∧ guide (MirrorBoundary p.1 W) (MirrorBoundary p.2 H) b *
            (D : ℚ) < 1/2) ∨
        (gz = D - 1 ∧ guide (MirrorBoundary p.1 W) (MirrorBoundary p.2 H) b *
            (D : ℚ) > (D : ℚ) - 1/2) then 1
     else SmoothedLerpWeight ((gz : ℚ) + 1/2)
       (guide (MirrorBoundary p.1 W) (MirrorBoundary p.2 H) b * (D : ℚ))) *
      LerpWeight ((gx : ℚ) + 1/2) (((p.1 : ℚ) + 1/2) / ((W : ℚ) / (GX : ℚ))) *
      LerpWeight ((gy : ℚ) + 1/2) (((p.2 : ℚ) + 1/2) / ((H : ℚ) / (GY : ℚ))) *
      codomain_tangent gc (MirrorBoundary p.1 W) (MirrorBoundary p.2 H) b

/-- C2.  The GridGradient kernel writes exactly the mirrored window sum
stated by the spec, including the depth-boundary override of `wz`. -/
theorem C2_gridgrad_writes_spec_sum (guide : ℤ → ℤ → ℤ → ℚ)
    (codomain_tangent : ℤ → ℤ → ℤ → ℤ → ℚ) (D GX GY W H : ℤ)
    (gc gz gx gy b : ℤ) :
    BilateralSliceGridGradKernelAt guide codomain_tangent D GX GY W H
        gc gz gx gy b =
      gridGradSpecValue guide codomain_tangent D GX GY W H gc gz gx gy b := by
  unfold BilateralSliceGridGradKernelAt gridGradSpecValue
  rw [sum_pair_product _ _ fun x y =>
    (if (gz = 0 ∧ guide (MirrorBoundary x W) (MirrorBoundary y H) b *
            (D : ℚ) < 1/2) ∨
        (gz = D - 1 ∧ guide (MirrorBoundary x W) (MirrorBoundary y H) b *
            (D : ℚ) > (D : ℚ) - 1/2) then 1
     else SmoothedLerpWeight ((gz : ℚ) + 1/2)
       (guide (MirrorBoundary x W) (MirrorBoundary y H) b * (D : ℚ))) *
      LerpWeight ((gx : ℚ) + 1/2) (((x : ℚ) + 1/2) / ((W : ℚ) / (GX : ℚ))) *
      LerpWeight ((gy : ℚ) + 1/2) (((y : ℚ) + 1/2) / ((H : ℚ) / (GY : ℚ))) *
      codomain_tangent gc (MirrorBoundary x W) (MirrorBoundary y H) b]
  rw [Finset.sum_comm]

/-- Guide-gradient value as the spec states it (claim C3): for each channel,
`grid_sample` is a single sum over the same clamped 2×2×2 neighborhood as
Slice of `wx·wy·(D·SmoothedLerpWeightGrad)·Grid`, and the output is the sum
over channels of `grid_sample · CodomainTangent`. -/
def guideGradSpecValue (grid : ℤ → ℤ → ℤ → ℤ → ℤ → ℚ)
    (guide : ℤ → ℤ → ℤ → ℚ) (codomain_tangent : ℤ → ℤ → ℤ → ℤ → ℚ)
    (C D GX GY W H : ℤ) (x y b : ℤ) : ℚ :=
  ∑ c ∈ Finset.Ico 0 C,
    (∑ t ∈ Finset.Ico ⌊((x : ℚ) + 1/2) * (GX : ℚ) / (W : ℚ) - 1/2⌋
          (⌊((x : ℚ) + 1/2) * (GX : ℚ) / (W : ℚ) - 1/2⌋ + 2) ×ˢ
        (Finset.Ico ⌊((y : ℚ) + 1/2) * (GY : ℚ) / (H : ℚ) - 1/2⌋
           (⌊((y : ℚ) + 1/2) * (GY : ℚ) / (H : ℚ) - 1/2⌋ + 2) ×ˢ
         Finset.Ico ⌊guide x y b * (D : ℚ) - 1/2⌋
           (⌊guide x y b * (D : ℚ) - 1/2⌋ + 2)),
      LerpWeight ((t.1 : ℚ) + 1/2) (((x : ℚ) + 1/2) * (GX : ℚ) / (W : ℚ)) *
        LerpWeight ((t.2.1 : ℚ) + 1/2)
          (((y : ℚ) + 1/2) * (GY : ℚ) / (H : ℚ)) *
        ((D : ℚ) * SmoothedLerpWeightGrad ((t.2.2 : ℚ) + 1/2)
          (guide x y b * (D : ℚ))) *
        grid c (stdClamp t.2.2 0 (D - 1)) (stdClamp t.1 0 (GX - 1))
          (stdClamp t.2.1 0 (GY - 1)) b) *
      codomain_tangent c x y b

/-- C3.  The GuideGradient kernel writes exactly the channel sum of
`grid_sample · CodomainTangent` stated by the spec, with `grid_sample` the
chain-rule derivative of the forward trilinear sample. -/
theorem C3_guidegrad_writes_spec_sum (grid : ℤ → ℤ → ℤ → ℤ → ℤ → ℚ)
    (guide : ℤ → ℤ → ℤ → ℚ) (codomain_tangent : ℤ → ℤ → ℤ → ℤ → ℚ)
    (C D GX GY W H : ℤ) (x y b : ℤ) :
    BilateralSliceGuideGradKernelAt grid guide codomain_tangent C D GX GY W H
        x y b =
      guideGradSpecValue grid guide codomain_tangent C D GX GY W H x y b := by
  unfold BilateralSliceGuideGradKernelAt guideGradCoords guideGradSpecValue
  dsimp only
  refine Finset.sum_congr rfl fun c _ => ?_
  have hgx : ((x : ℚ) + 1/2) * ((GX : ℚ) / (W : ℚ)) =
      ((x : ℚ) + 1/2) * (GX : ℚ) / (W : ℚ) := by ring
  have hgy : ((y : ℚ) + 1/2) * ((GY : ℚ) / (H : ℚ)) =
      ((y : ℚ) + 1/2) * (GY : ℚ) / (H : ℚ) := by ring
  rw [hgx, hgy, sum_triple_product _ _ _ fun gx gy gz =>
    LerpWeight ((gx : ℚ) + 1/2) (((x : ℚ) + 1/2) * (GX : ℚ) / (W : ℚ)) *
      LerpWeight ((gy : ℚ) + 1/2) (((y : ℚ) + 1/2) * (GY : ℚ) / (H : ℚ)) *
      ((D : ℚ) * SmoothedLerpWeightGrad ((gz : ℚ) + 1/2)
        (guide x y b * (D : ℚ))) *
      grid c (stdClamp gz 0 (D - 1)) (stdClamp gx 0 (GX - 1))
        (stdClamp gy 0 (GY - 1)) b, Finset.sum_comm]

end CoordTheorems

section StencilSums

lemma cast_succ_half (n : ℤ) : ((n + 1 : ℤ) : ℚ) + 1/2 = (n : ℚ) + 3/2 := by
  push_cast
  ring

lemma lerp_sum_Ico (v : ℚ) :
    ∑ t ∈ Finset.Ico ⌊v - 1/2⌋ (⌊v - 1/2⌋ + 2),
      LerpWeight ((t : ℚ) + 1/2) v = 1 := by
  rw [sum_Ico_two (fun t => LerpWeight ((t : ℚ) + 1/2) v) ⌊v - 1/2⌋,
    cast_succ_half]
  exact lerpWeight_pair v

lemma smoothed_sum_Ico (v : ℚ) :
    ∑ t ∈ Finset.Ico ⌊v - 1/2⌋ (⌊v - 1/2⌋ + 2),
      SmoothedLerpWeight ((t : ℚ) + 1/2) v = 1 := by
  rw [sum_Ico_two (fun t => SmoothedLerpWeight ((t : ℚ) + 1/2) v) ⌊v - 1/2⌋,
    cast_succ_half]
  exact smoothed_pair v

lemma sum_factor3 (A B C : Finset ℤ) (f g h : ℤ → ℚ) (k : ℚ) :
    (∑ a ∈ A, f a) * (∑ b ∈ B, g b) * (∑ c ∈ C, h c) * k =
      ∑ a ∈ A, ∑ b ∈ B, ∑ c ∈ C, g b * f a * h c * k := by
  have h2 : (∑ b ∈ B, g b) * ((∑ c ∈ C, h c) * k) =
      ∑ b ∈ B, g b * ((∑ c ∈ C, h c) * k) := Finset.sum_mul _ _ _
  have h3 : (∑ c ∈ C, h c) * k = ∑ c ∈ C, h c * k := Finset.sum_mul _ _ _
  calc (∑ a ∈ A, f a) * (∑ b ∈ B, g b) * (∑ c ∈ C, h c) * k
      = (∑ a ∈ A, f a) * ((∑ b ∈ B, g b) * ((∑ c ∈ C, h c) * k)) := by ring
    _ = ∑ a ∈ A, f a * ((∑ b ∈ B, g b) * ((∑ c ∈ C, h c) * k)) :=
        Finset.sum_mul _ _ _
    _ = ∑ a ∈ A, ∑ b ∈ B, f a * (g b * ((∑ c ∈ C, h c) * k)) :=
        Finset.sum_congr rfl fun a _ => by rw [h2, Finset.mul_sum]
    _ = ∑ a ∈ A, ∑ b ∈ B, ∑ c ∈ C, f a * (g b * (h c * k)) :=
        Finset.sum_congr rfl fun a _ => Finset.sum_congr rfl fun b _ => by
          rw [h3, Finset.mul_sum, Finset.mul_sum]
    _ = ∑ a ∈ A, ∑ b ∈ B, ∑ c ∈ C, g b * f a * h c * k :=
        Finset.sum_congr rfl fun a _ => Finset.sum_congr rfl fun b _ =>
          Finset.sum_congr rfl fun c _ => by ring

/-- C5.  For a grid whose entries are all the constant `k`, Slice outputs `k`
at every element, independent of the guide; and the interpolation weights
`wx·wy·wz` over any 2×2×2 stencil sum to 1. -/
theorem C5_constant_grid_gives_constant_output
    (grid : ℤ → ℤ → ℤ → ℤ → ℤ → ℚ) (guide : ℤ → ℤ → ℤ → ℚ)
    (D GX GY W H : ℤ) (k : ℚ)
    (hgrid : ∀ c z x y b : ℤ, grid c z x y b = k) (c x y b : ℤ) :
    BilateralSliceKernelAt grid guide D GX GY W H c x y b = k ∧
    (∀ gxf gyf gzf : ℚ,
      ∑ gy ∈ Finset.Ico ⌊gyf - 1/2⌋ (⌊gyf - 1/2⌋ + 2),
        ∑ gx ∈ Finset.Ico ⌊gxf - 1/2⌋ (⌊gxf - 1/2⌋ + 2),
          ∑ gz ∈ Finset.Ico ⌊gzf - 1/2⌋ (⌊gzf - 1/2⌋ + 2),
            LerpWeight ((gx : ℚ) + 1/2) gxf * LerpWeight ((gy : ℚ) + 1/2) gyf *
              SmoothedLerpWeight ((gz : ℚ) + 1/2) gzf = 1) := by
  have hstencil : ∀ gxf gyf gzf : ℚ,
      ∑ gy ∈ Finset.Ico ⌊gyf - 1/2⌋ (⌊gyf - 1/2⌋ + 2),
        ∑ gx ∈ Finset.Ico ⌊gxf - 1/2⌋ (⌊gxf - 1/2⌋ + 2),
          ∑ gz ∈ Finset.Ico ⌊gzf - 1/2⌋ (⌊gzf - 1/2⌋ + 2),
            LerpWeight ((gx : ℚ) + 1/2) gxf * LerpWeight ((gy : ℚ) + 1/2) gyf *
              SmoothedLerpWeight ((gz : ℚ) + 1/2) gzf = 1 := by
    intro gxf gyf gzf
    have hfac := sum_factor3 (Finset.Ico ⌊gyf - 1/2⌋ (⌊gyf - 1/2⌋ + 2))
      (Finset.Ico ⌊gxf - 1/2⌋ (⌊gxf - 1/2⌋ + 2))
      (Finset.Ico ⌊gzf - 1/2⌋ (⌊gzf - 1/2⌋ + 2))
      (fun gy => LerpWeight ((gy : ℚ) + 1/2) gyf)
      (fun gx => LerpWeight ((gx : ℚ) + 1/2) gxf)
      (fun gz => SmoothedLerpWeight ((gz : ℚ) + 1/2) gzf) 1
    rw [lerp_sum_Ico, lerp_sum_Ico, smoothed_sum_Ico] at hfac
    norm_num at hfac
    exact hfac.symm
  refine ⟨?_, hstencil⟩
  unfold BilateralSliceKernelAt sliceCoords
  dsimp only
  have hk : ∀ gyv gxv gzv : ℤ,
      LerpWeight ((gxv : ℚ) + 1/2)
          (((x : ℚ) + 1/2) * ((GX : ℚ) / (W : ℚ))) *
        LerpWeight ((gyv : ℚ) + 1/2)
          (((y : ℚ) + 1/2) * ((GY : ℚ) / (H : ℚ))) *
        SmoothedLerpWeight ((gzv : ℚ) + 1/2) (guide x y b * (D : ℚ)) *
        grid c (stdClamp gzv 0 (D - 1)) (stdClamp gxv 0 (GX - 1))
          (stdClamp gyv 0 (GY - 1)) b =
      LerpWeight ((gxv : ℚ) + 1/2)
          (((x : ℚ) + 1/2) * ((GX : ℚ) / (W : ℚ))) *
        LerpWeight ((gyv : ℚ) + 1/2)
          (((y : ℚ) + 1/2) * ((GY : ℚ) / (H : ℚ))) *
        SmoothedLerpWeight ((gzv : ℚ) + 1/2) (guide x y b * (D : ℚ)) * k :=
    fun gyv gxv gzv => by rw [hgrid]
  calc ∑ gy ∈ Finset.Ico ⌊((y : ℚ) + 1/2) * ((GY : ℚ) / (H : ℚ)) - 1/2⌋
        (⌊((y : ℚ) + 1/2) * ((GY : ℚ) / (H : ℚ)) - 1/2⌋ + 2),
      ∑ gx ∈ Finset.Ico ⌊((x : ℚ) + 1/2) * ((GX : ℚ) / (W : ℚ)) - 1/2⌋
          (⌊((x : ℚ) + 1/2) * ((GX : ℚ) / (W : ℚ)) - 1/2⌋ + 2),
        ∑ gz ∈ Finset.Ico ⌊guide x y b * (D : ℚ) - 1/2⌋
            (⌊guide x y b * (D : ℚ) - 1/2⌋ + 2),
          LerpWeight ((gx : ℚ) + 1/2)
              (((x : ℚ) + 1/2) * ((GX : ℚ) / (W : ℚ))) *
            LerpWeight ((gy : ℚ) + 1/2)
              (((y : ℚ) + 1/2) * ((GY : ℚ) / (H : ℚ))) *
            SmoothedLerpWeight ((gz : ℚ) + 1/2) (guide x y b * (D : ℚ)) *
            grid c (stdClamp gz 0 (D - 1)) (stdClamp gx 0 (GX - 1))
              (stdClamp gy 0 (GY - 1)) b
      = ∑ gy ∈ Finset.Ico ⌊((y : ℚ) + 1/2) * ((GY : ℚ) / (H : ℚ)) - 1/2⌋
          (⌊((y : ℚ) + 1/2) * ((GY : ℚ) / (H : ℚ)) - 1/2⌋ + 2),
        ∑ gx ∈ Finset.Ico ⌊((x : ℚ) + 1/2) * ((GX : ℚ) / (W : ℚ)) - 1/2⌋
            (⌊((x : ℚ) + 1/2) * ((GX : ℚ) / (W : ℚ)) - 1/2⌋ + 2),
          ∑ gz ∈ Finset.Ico ⌊guide x y b * (D : ℚ) - 1/2⌋
              (⌊guide x y b * (D : ℚ) - 1/2⌋ + 2),
            LerpWeight ((gx : ℚ) + 1/2)
                (((x : ℚ) + 1/2) * ((GX : ℚ) / (W : ℚ))) *
              LerpWeight ((gy : ℚ) + 1/2)
                (((y : ℚ) + 1/2) * ((GY : ℚ) / (H : ℚ))) *
              SmoothedLerpWeight ((gz : ℚ) + 1/2) (guide x y b * (D : ℚ)) *
              k := by
        exact Finset.sum_congr rfl fun gy _ => Finset.sum_congr rfl
          fun gx _ => Finset.sum_congr rfl fun gz _ => hk gy gx gz
    _ = k := by
        rw [← sum_factor3 _ _ _
          (fun gy => LerpWeight ((gy : ℚ) + 1/2)
            (((y : ℚ) + 1/2) * ((GY : ℚ) / (H : ℚ))))
          (fun gx => LerpWeight ((gx : ℚ) + 1/2)
            (((x : ℚ) + 1/2) * ((GX : ℚ) / (W : ℚ))))
          (fun gz => SmoothedLerpWeight ((gz : ℚ) + 1/2)
            (guide x y b * (D : ℚ))) k,
          lerp_sum_Ico, lerp_sum_Ico, smoothed_sum_Ico]
        ring

/-- Witness for C5: a concrete constant grid slices to that constant. -/
theorem C5_constant_grid_gives_constant_output_witness :
    (∀ c z x y b : ℤ, (fun _ _ _ _ _ => (7 : ℚ)) c z x y b = 7) ∧
    BilateralSliceKernelAt (fun _ _ _ _ _ => (7 : ℚ))
      (fun x _ _ => if x = 0 then 1/4 else 2) 2 2 1 3 1 0 1 0 0 = 7 :=
  ⟨fun _ _ _ _ _ => rfl,
   (C5_constant_grid_gives_constant_output (fun _ _ _ _ _ => (7 : ℚ))
     (fun x _ _ => if x = 0 then 1/4 else 2) 2 2 1 3 1 7
     (fun _ _ _ _ _ => rfl) 0 1 0 0).1⟩

end StencilSums

section BoundaryClamp

/-- Spatial bilinear sample of a single depth slice `k` of the grid, with the
same spatial weights and clamping as Slice (claim C6's depth-clamped
sample). -/
def depthSliceSample (grid : ℤ → ℤ → ℤ → ℤ → ℤ → ℚ) (GX GY W H : ℤ)
    (k : ℤ) (c x y b : ℤ) : ℚ :=
  ∑ gy ∈ Finset.Ico ⌊((y : ℚ) + 1/2) * ((GY : ℚ) / (H : ℚ)) - 1/2⌋
      (⌊((y : ℚ) + 1/2) * ((GY : ℚ) / (H : ℚ)) - 1/2⌋ + 2),
    ∑ gx ∈ Finset.Ico ⌊((x : ℚ) + 1/2) * ((GX : ℚ) / (W : ℚ)) - 1/2⌋
        (⌊((x : ℚ) + 1/2) * ((GX : ℚ) / (W : ℚ)) - 1/2⌋ + 2),
      LerpWeight ((gx : ℚ) + 1/2) (((x : ℚ) + 1/2) * ((GX : ℚ) / (W : ℚ))) *
        LerpWeight ((gy : ℚ) + 1/2)
          (((y : ℚ) + 1/2) * ((GY : ℚ) / (H : ℚ))) *
        grid c k (stdClamp gx 0 (GX - 1)) (stdClamp gy 0 (GY - 1)) b

/-- C6.  At a pixel whose guide value is exactly 0 (resp. exactly 1), Slice
outputs the depth-clamped sample of the grid's first (resp. last) depth
slice. -/
theorem C6_boundary_guide_clamps_depth (grid : ℤ → ℤ → ℤ → ℤ → ℤ → ℚ)
    (guide : ℤ → ℤ → ℤ → ℚ) (D GX GY W H : ℤ) (hD : 0 < D) (c x y b : ℤ) :
    (guide x y b = 0 →
      BilateralSliceKernelAt grid guide D GX GY W H c x y b =
        depthSliceSample grid GX GY W H 0 c x y b) ∧
    (guide x y b = 1 →
      BilateralSliceKernelAt grid guide D GX GY W H c x y b =
        depthSliceSample grid GX GY W H (D - 1) c x y b) := by
  constructor
  · intro hg
    unfold BilateralSliceKernelAt sliceCoords depthSliceSample
    dsimp only
    rw [hg, zero_mul]
    have h0 : ⌊(0 : ℚ) - 1/2⌋ = -1 := by
      rw [Int.floor_eq_iff]
      norm_num
    rw [h0]
    refine Finset.sum_congr rfl fun gy _ => Finset.sum_congr rfl fun gx _ => ?_
    rw [sum_Ico_two (fun gz =>
      LerpWeight ((gx : ℚ) + 1/2) (((x : ℚ) + 1/2) * ((GX : ℚ) / (W : ℚ))) *
        LerpWeight ((gy : ℚ) + 1/2)
          (((y : ℚ) + 1/2) * ((GY : ℚ) / (H : ℚ))) *
        SmoothedLerpWeight ((gz : ℚ) + 1/2) 0 *
        grid c (stdClamp gz 0 (D - 1)) (stdClamp gx 0 (GX - 1))
          (stdClamp gy 0 (GY - 1)) b) (-1)]
    have hc1 : stdClamp (-1) 0 (D - 1) = 0 := stdClamp_of_le_lo (by omega)
    have hc2 : stdClamp (-1 + 1) 0 (D - 1) = 0 :=
      stdClamp_of_mem (by omega) (by omega)
    rw [hc1, hc2, cast_succ_half (-1)]
    have hp := smoothed_pair (0 : ℚ)
    rw [h0] at hp
    linear_combination (LerpWeight ((gx : ℚ) + 1/2)
        (((x : ℚ) + 1/2) * ((GX : ℚ) / (W : ℚ))) *
      LerpWeight ((gy : ℚ) + 1/2) (((y : ℚ) + 1/2) * ((GY : ℚ) / (H : ℚ))) *
      grid c 0 (stdClamp gx 0 (GX - 1)) (stdClamp gy 0 (GY - 1)) b) * hp
  · intro hg
    unfold BilateralSliceKernelAt sliceCoords depthSliceSample
    dsimp only
    rw [hg, one_mul]
    have hD1 : (1 : ℚ) ≤ (D : ℚ) := by exact_mod_cast hD
    have h0 : ⌊(D : ℚ) - 1/2⌋ = D - 1 := by
      rw [Int.floor_eq_iff]
      constructor
      · push_cast
        linarith
      · push_cast
        linarith
    rw [h0]
    refine Finset.sum_congr rfl fun gy _ => Finset.sum_congr rfl fun gx _ => ?_
    rw [sum_Ico_two (fun gz =>
      LerpWeight ((gx : ℚ) + 1/2) (((x : ℚ) + 1/2) * ((GX : ℚ) / (W : ℚ))) *
        LerpWeight ((gy : ℚ) + 1/2)
          (((y : ℚ) + 1/2) * ((GY : ℚ) / (H : ℚ))) *
        SmoothedLerpWeight ((gz : ℚ) + 1/2) (D : ℚ) *
        grid c (stdClamp gz 0 (D - 1)) (stdClamp gx 0 (GX - 1))
          (stdClamp gy 0 (GY - 1)) b) (D - 1)]
    have hc1 : stdClamp (D - 1) 0 (D - 1) = D - 1 :=
      stdClamp_of_mem (by omega) (by omega)
    have hc2 : stdClamp (D - 1 + 1) 0 (D - 1) = D - 1 :=
      stdClamp_of_hi_le (by omega) (by omega)
    rw [hc1, hc2, cast_succ_half (D - 1)]
    have hp := smoothed_pair ((D : ℚ))
    rw [h0] at hp
    linear_combination (LerpWeight ((gx : ℚ) + 1/2)
        (((x : ℚ) + 1/2) * ((GX : ℚ) / (W : ℚ))) *
      LerpWeight ((gy : ℚ) + 1/2) (((y : ℚ) + 1/2) * ((GY : ℚ) / (H : ℚ))) *
      grid c (D - 1) (stdClamp gx 0 (GX - 1)) (stdClamp gy 0 (GY - 1)) b) *
      hp

/-- Witness for C6 at a concrete grid and guide. -/
theorem C6_boundary_guide_clamps_depth_witness :
    (0 : ℤ) < 3 ∧
    BilateralSliceKernelAt (fun _ z _ _ _ => (z : ℚ) + 2)
      (fun _ _ _ => 0) 3 1 1 2 2 0 1 1 0 =
      depthSliceSample (fun _ z _ _ _ => (z : ℚ) + 2) 1 1 2 2 0 0 1 1 0 :=
  ⟨by norm_num,
   (C6_boundary_guide_clamps_depth (fun _ z _ _ _ => (z : ℚ) + 2)
     (fun _ _ _ => 0) 3 1 1 2 2 (by norm_num) 0 1 1 0).1 rfl⟩

end BoundaryClamp

section ReadSafety

/-- C10.  Under consistent positive shapes, every array read of the three
kernels is in bounds: the clamped tap indices `gzc, gxc, gyc` used by Slice
and GuideGradient (and the depth clamp of GridGradient's override test) lie in
`[0, extent-1]` for every tap, and the mirrored pixel indices
`x_mirror, y_mirror` used by GridGradient lie in `[0, W-1]` × `[0, H-1]` for
every window position, so an out-of-range access is impossible. -/
theorem C10_kernel_reads_in_bounds (D GX GY W H : ℤ) (hD : 0 < D)
    (hGX : 0 < GX) (hGY : 0 < GY) (hW : 0 < W) (hH : 0 < H) :
    (∀ gz : ℤ, 0 ≤ stdClamp gz 0 (D - 1) ∧ stdClamp gz 0 (D - 1) ≤ D - 1) ∧
    (∀ gx : ℤ, 0 ≤ stdClamp gx 0 (GX - 1) ∧
      stdClamp gx 0 (GX - 1) ≤ GX - 1) ∧
    (∀ gy : ℤ, 0 ≤ stdClamp gy 0 (GY - 1) ∧
      stdClamp gy 0 (GY - 1) ≤ GY - 1) ∧
    (∀ x : ℤ, 0 ≤ MirrorBoundary x W ∧ MirrorBoundary x W ≤ W - 1) ∧
    (∀ y : ℤ, 0 ≤ MirrorBoundary y H ∧ MirrorBoundary y H ≤ H - 1) :=
  ⟨fun gz => ⟨stdClamp_ge gz 0 (D - 1), stdClamp_le (by omega)⟩,
   fun gx => ⟨stdClamp_ge gx 0 (GX - 1), stdClamp_le (by omega)⟩,
   fun gy => ⟨stdClamp_ge gy 0 (GY - 1), stdClamp_le (by omega)⟩,
   fun x => ⟨mirrorBoundary_nonneg hW, by have := mirrorBoundary_lt (i := x) hW; omega⟩,
   fun y => ⟨mirrorBoundary_nonneg hH, by have := mirrorBoundary_lt (i := y) hH; omega⟩⟩

/-- Witness for C10 at concrete extents and concrete out-of-range taps. -/
theorem C10_kernel_reads_in_bounds_witness :
    (0 : ℤ) < 2 ∧ (0 ≤ stdClamp (-5) 0 (2 - 1) ∧ stdClamp (-5) 0 (2 - 1) ≤ 2 - 1) ∧
    (0 ≤ MirrorBoundary (-3) 3 ∧ MirrorBoundary (-3) 3 ≤ 3 - 1) :=
  ⟨by norm_num,
   (C10_kernel_reads_in_bounds 2 1 1 3 4 (by norm_num) (by norm_num)
     (by norm_num) (by norm_num) (by norm_num)).1 (-5),
   (C10_kernel_reads_in_bounds 2 1 1 3 4 (by norm_num) (by norm_num)
     (by norm_num) (by norm_num) (by norm_num)).2.2.2.1 (-3)⟩

end ReadSafety

section AdjointMachinery

lemma lerp_zero_of_le_sub {c q : ℚ} (h : 1 ≤ c - q) : LerpWeight c q = 0 :=
  lerpWeight_of_far (by rw [abs_of_nonpos (by linarith)]; linarith)

lemma lerp_zero_of_sub_le {c q : ℚ} (h : 1 ≤ q - c) : LerpWeight c q = 0 :=
  lerpWeight_of_far (by rw [abs_of_nonneg (by linarith)]; linarith)

lemma smoothed_zero_of_le_sub {c q : ℚ} (h : 1 ≤ c - q) :
    SmoothedLerpWeight c q = 0 :=
  smoothed_of_far (by rw [abs_of_nonpos (by linarith)]; linarith)

lemma smoothed_zero_of_sub_le {c q : ℚ} (h : 1 ≤ q - c) :
    SmoothedLerpWeight c q = 0 :=
  smoothed_of_far (by rw [abs_of_nonneg (by linarith)]; linarith)

/-- Near-support of the triangular weight: a nonzero weight pins the query to
the open unit ball around the center. -/
lemma lerp_support {c q : ℚ} (h : LerpWeight c q ≠ 0) : |q - c| < 1 := by
  by_contra hc
  push_neg at hc
  exact h (lerpWeight_of_far hc)

/-- Regrouping a weighted sum by the fibers of an index transform. -/
lemma fiber_sum (s t : Finset ℤ) (φ : ℤ → ℤ) (hm : ∀ i ∈ s, φ i ∈ t)
    (w F : ℤ → ℚ) :
    ∑ i ∈ s, w i * F (φ i) =
      ∑ j ∈ t, (∑ i ∈ s.filter (fun i => φ i = j), w i) * F j := by
  rw [← Finset.sum_fiberwise_of_maps_to hm (fun i => w i * F (φ i))]
  refine Finset.sum_congr rfl fun j _ => ?_
  rw [Finset.sum_mul]
  refine Finset.sum_congr rfl fun i hi => ?_
  rw [Finset.mem_filter] at hi
  rw [hi.2]

/-- Total clamped linear tap weight that grid cell `j` (on an axis of extent
`E`) receives from fractional position `v` in the forward stencil. -/
def fwdCoefL (E : ℤ) (v : ℚ) (j : ℤ) : ℚ :=
  ∑ t ∈ (Finset.Ico ⌊v - 1/2⌋ (⌊v - 1/2⌋ + 2)).filter
      (fun t => stdClamp t 0 (E - 1) = j),
    LerpWeight ((t : ℚ) + 1/2) v

/-- Total clamped smoothed tap weight that depth cell `j` (extent `E`)
receives from fractional position `v` in the forward stencil. -/
def fwdCoefS (E : ℤ) (v : ℚ) (j : ℤ) : ℚ :=
  ∑ t ∈ (Finset.Ico ⌊v - 1/2⌋ (⌊v - 1/2⌋ + 2)).filter
      (fun t => stdClamp t 0 (E - 1) = j),
    SmoothedLerpWeight ((t : ℚ) + 1/2) v

/-- Total mirrored window weight that pixel `p` (axis of pixel extent `P`,
grid extent `E`) contributes to grid cell `j` in the backward window sum. -/
def bwdCoefL (E P : ℤ) (j p : ℤ) : ℚ :=
  ∑ i ∈ (Finset.Ico ⌊(P : ℚ) / (E : ℚ) * ((j : ℚ) + 1/2 - 1)⌋
      ⌈(P : ℚ) / (E : ℚ) * ((j : ℚ) + 1/2 + 1)⌉).filter
      (fun i => MirrorBoundary i P = p),
    LerpWeight ((j : ℚ) + 1/2) (((i : ℚ) + 1/2) / ((P : ℚ) / (E : ℚ)))

/-- Depth weight used by the GridGradient kernel: the smoothed weight with
the boundary override to 1. -/
def bwdCoefZ (E : ℤ) (v : ℚ) (j : ℤ) : ℚ :=
  if (j = 0 ∧ v < 1/2) ∨ (j = E - 1 ∧ v > (E : ℚ) - 1/2) then 1
  else SmoothedLerpWeight ((j : ℚ) + 1/2) v

/-- Coverage: a pixel whose backward weight for cell `j` is nonzero lies in
the kernel's inverted window for `j`. -/
lemma mem_window_of_lerp_ne {E P : ℤ} (hE : 0 < E) (hP : 0 < P) {j i : ℤ}
    (h : LerpWeight ((j : ℚ) + 1/2) (((i : ℚ) + 1/2) / ((P : ℚ) / (E : ℚ)))
      ≠ 0) :
    i ∈ Finset.Ico ⌊(P : ℚ) / (E : ℚ) * ((j : ℚ) + 1/2 - 1)⌋
      ⌈(P : ℚ) / (E : ℚ) * ((j : ℚ) + 1/2 + 1)⌉ := by
  have hs : (0 : ℚ) < (P : ℚ) / (E : ℚ) := by positivity
  have hsupp := lerp_support h
  rw [abs_lt] at hsupp
  have hq1 : ((j : ℚ) + 1/2 - 1) * ((P : ℚ) / (E : ℚ)) < (i : ℚ) + 1/2 := by
    have h2 : (j : ℚ) + 1/2 - 1 < ((i : ℚ) + 1/2) / ((P : ℚ) / (E : ℚ)) := by
      linarith [hsupp.1]
    calc ((j : ℚ) + 1/2 - 1) * ((P : ℚ) / (E : ℚ))
        < ((i : ℚ) + 1/2) / ((P : ℚ) / (E : ℚ)) * ((P : ℚ) / (E : ℚ)) := by
          exact mul_lt_mul_of_pos_right h2 hs
      _ = (i : ℚ) + 1/2 := div_mul_cancel₀ _ (by positivity)
  have hq2 : (i : ℚ) + 1/2 < ((j : ℚ) + 1/2 + 1) * ((P : ℚ) / (E : ℚ)) := by
    have h2 : ((i : ℚ) + 1/2) / ((P : ℚ) / (E : ℚ)) < (j : ℚ) + 1/2 + 1 := by
      linarith [hsupp.2]
    calc (i : ℚ) + 1/2
        = ((i : ℚ) + 1/2) / ((P : ℚ) / (E : ℚ)) * ((P : ℚ) / (E : ℚ)) :=
          (div_mul_cancel₀ _ (by positivity)).symm
      _ < ((j : ℚ) + 1/2 + 1) * ((P : ℚ) / (E : ℚ)) :=
          mul_lt_mul_of_pos_right h2 hs
  rw [Finset.mem_Ico]
  constructor
  · have hfl : ((⌊(P : ℚ) / (E : ℚ) * ((j : ℚ) + 1/2 - 1)⌋ : ℤ) : ℚ) ≤
        (P : ℚ) / (E : ℚ) * ((j : ℚ) + 1/2 - 1) := Int.floor_le _
    by_contra hcon
    push_neg at hcon
    have : (i : ℚ) + 1 ≤
        ((⌊(P : ℚ) / (E : ℚ) * ((j : ℚ) + 1/2 - 1)⌋ : ℤ) : ℚ) := by
      exact_mod_cast hcon
    nlinarith
  · have hcl : (P : ℚ) / (E : ℚ) * ((j : ℚ) + 1/2 + 1) ≤
        ((⌈(P : ℚ) / (E : ℚ) * ((j : ℚ) + 1/2 + 1)⌉ : ℤ) : ℚ) :=
      Int.le_ceil _
    by_contra hcon
    push_neg at hcon
    have : ((⌈(P : ℚ) / (E : ℚ) * ((j : ℚ) + 1/2 + 1)⌉ : ℤ) : ℚ) ≤ (i : ℚ) :=
      by exact_mod_cast hcon
    nlinarith

/-- An interior cell's window starts at a nonnegative pixel index. -/
lemma window_lo_nonneg {E P j : ℤ} (hE : 0 < E) (hP : 0 < P) (hj : 1 ≤ j) :
    0 ≤ ⌊(P : ℚ) / (E : ℚ) * ((j : ℚ) + 1/2 - 1)⌋ := by
  have hs : (0 : ℚ) < (P : ℚ) / (E : ℚ) := by positivity
  have hj' : (1 : ℚ) ≤ (j : ℚ) := by exact_mod_cast hj
  have : (0 : ℚ) ≤ (P : ℚ) / (E : ℚ) * ((j : ℚ) + 1/2 - 1) := by nlinarith
  exact Int.floor_nonneg.2 this

/-- An interior cell's window ends at or before the pixel extent. -/
lemma window_hi_le {E P j : ℤ} (hE : 0 < E) (hP : 0 < P) (hj : j ≤ E - 2) :
    ⌈(P : ℚ) / (E : ℚ) * ((j : ℚ) + 1/2 + 1)⌉ ≤ P := by
  have hs : (0 : ℚ) < (P : ℚ) / (E : ℚ) := by positivity
  have hj' : (j : ℚ) ≤ (E : ℚ) - 2 := by exact_mod_cast hj
  have hmul : (P : ℚ) / (E : ℚ) * ((j : ℚ) + 1/2 + 1) ≤
      (P : ℚ) / (E : ℚ) * ((E : ℚ) - 1/2) :=
    mul_le_mul_of_nonneg_left (by linarith) (le_of_lt hs)
  have hE0 : (E : ℚ) ≠ 0 := by positivity
  have hid : (P : ℚ) / (E : ℚ) * ((E : ℚ) - 1/2) =
      (P : ℚ) - (P : ℚ) / (E : ℚ) * (1/2) := by
    field_simp
    ring
  refine Int.ceil_le.2 ?_
  push_cast
  nlinarith

/-- Closed form of the forward linear coefficient for an in-range fractional
position: the cell's own tap weight, plus the clamped out-of-range tap weight
at the first and last cells. -/
lemma fwdCoefL_closed {E : ℤ} (hE : 0 < E) {v : ℚ} (hv0 : 0 < v)
    (hvE : v < (E : ℚ)) {j : ℤ} (hj0 : 0 ≤ j) (hjE : j < E) :
    fwdCoefL E v j = LerpWeight ((j : ℚ) + 1/2) v +
      (if j = 0 then LerpWeight ((j : ℚ) - 1/2) v else 0) +
      (if j = E - 1 then LerpWeight ((j : ℚ) + 3/2) v else 0) := by
  have ht0l := floor_half_le v
  have ht0u := lt_floor_half v
  have ht0m1 : -1 ≤ ⌊v - 1/2⌋ := Int.le_floor.2 (by push_cast; linarith)
  have ht0E : ⌊v - 1/2⌋ ≤ E - 1 := by
    have h : ⌊v - 1/2⌋ < E := Int.floor_lt.2 (by push_cast; linarith)
    omega
  have hjq0 : (0 : ℚ) ≤ (j : ℚ) := by exact_mod_cast hj0
  have hjqE : (j : ℚ) < (E : ℚ) := by exact_mod_cast hjE
  have hEq : (1 : ℚ) ≤ (E : ℚ) := by exact_mod_cast hE
  unfold fwdCoefL
  rw [Finset.sum_filter, sum_Ico_two (fun t =>
    if stdClamp t 0 (E - 1) = j then LerpWeight ((t : ℚ) + 1/2) v else 0)
    ⌊v - 1/2⌋]
  by_cases hA : ⌊v - 1/2⌋ = -1
  · have hv12 : v < 1/2 := by
      have h := ht0u
      rw [hA] at h
      push_cast at h
      linarith
    rw [hA, stdClamp_of_le_lo (by omega : (-1 : ℤ) ≤ 0),
      stdClamp_of_mem (by omega : (0 : ℤ) ≤ -1 + 1) (by omega)]
    by_cases hj : j = 0
    · subst hj
      rw [if_pos rfl, if_pos (show (-1 : ℤ) + 1 = 0 by norm_num),
        if_pos rfl]
      push_cast
      norm_num
      by_cases hE1 : (0 : ℤ) = E - 1
      · rw [if_pos hE1]
        have hz : LerpWeight ((3 : ℚ) / 2) v = 0 :=
          lerp_zero_of_le_sub (by linarith)
        rw [hz]
        ring
      · rw [if_neg hE1]
        ring
    · rw [if_neg (fun h => hj h.symm), if_neg (fun h => hj h.symm),
        if_neg hj]
      have hj1 : (1 : ℚ) ≤ (j : ℚ) := by
        have : 1 ≤ j := by omega
        exact_mod_cast this
      rw [lerp_zero_of_le_sub (by linarith)]
      by_cases hjE1 : j = E - 1
      · rw [if_pos hjE1, lerp_zero_of_le_sub (by linarith)]
        ring
      · rw [if_neg hjE1]
        ring
  · by_cases hB : ⌊v - 1/2⌋ = E - 1
    · have hvlo : (E : ℚ) - 1/2 ≤ v := by
        have h := ht0l
        rw [hB] at h
        push_cast at h
        linarith
      rw [hB, stdClamp_of_mem (by omega) (by omega),
        stdClamp_of_hi_le (by omega) (by omega)]
      by_cases hj : j = E - 1
      · subst hj
        rw [if_pos rfl, if_pos rfl, if_pos rfl]
        push_cast
        by_cases hj0' : E - 1 = 0
        · rw [if_pos hj0']
          have hz : LerpWeight (((E : ℚ) - 1) - 1/2) v = 0 :=
            lerp_zero_of_sub_le (by linarith)
          rw [hz]
          ring
        · rw [if_neg hj0']
          ring
      · rw [if_neg (fun h => hj h.symm), if_neg (fun h => hj h.symm),
        if_neg hj]
        have hj2 : (j : ℚ) ≤ (E : ℚ) - 2 := by
          have : j ≤ E - 2 := by omega
          calc (j : ℚ) ≤ ((E - 2 : ℤ) : ℚ) := by exact_mod_cast this
            _ = (E : ℚ) - 2 := by push_cast; ring
        rw [lerp_zero_of_sub_le (by linarith)]
        by_cases hj0' : j = 0
        · rw [if_pos hj0', lerp_zero_of_sub_le (by
            rw [hj0']; push_cast; linarith)]
          ring
        · rw [if_neg hj0']
          ring
    · -- interior taps: 0 ≤ t0 ≤ E - 2
      have ht00 : 0 ≤ ⌊v - 1/2⌋ := by omega
      have ht02 : ⌊v - 1/2⌋ ≤ E - 2 := by omega
      have htq0 : (0 : ℚ) ≤ (⌊v - 1/2⌋ : ℚ) := by exact_mod_cast ht00
      have htq2 : (⌊v - 1/2⌋ : ℚ) ≤ (E : ℚ) - 2 := by
        calc (⌊v - 1/2⌋ : ℚ) ≤ ((E - 2 : ℤ) : ℚ) := by exact_mod_cast ht02
          _ = (E : ℚ) - 2 := by push_cast; ring
      rw [stdClamp_of_mem (by omega) (by omega),
        stdClamp_of_mem (by omega) (by omega)]
      have hbd1 : (if j = 0 then LerpWeight ((j : ℚ) - 1/2) v else 0) = 0 := by
        by_cases hj0' : j = 0
        · rw [if_pos hj0', lerp_zero_of_sub_le (by
            rw [hj0']; push_cast; linarith)]
        · rw [if_neg hj0']
      have hbd2 : (if j = E - 1 then LerpWeight ((j : ℚ) + 3/2) v else 0)
          = 0 := by
        by_cases hjE1 : j = E - 1
        · rw [if_pos hjE1, lerp_zero_of_le_sub (by
            rw [hjE1]; push_cast; linarith)]
        · rw [if_neg hjE1]
      rw [hbd1, hbd2]
      by_cases hj : ⌊v - 1/2⌋ = j
      · rw [if_pos hj, if_neg (by omega : ¬ ⌊v - 1/2⌋ + 1 = j), hj]
        ring
      · by_cases hj' : ⌊v - 1/2⌋ + 1 = j
        · rw [if_neg hj, if_pos hj', ← hj']
          push_cast
          ring_nf
        · rw [if_neg hj, if_neg hj']
          rw [lerpWeight_tap_vanish (by
            rw [Finset.mem_Ico]
            omega)]
          ring

lemma smoothed_self (c : ℚ) : SmoothedLerpWeight c c = 1 := by
  unfold SmoothedLerpWeight
  rw [sub_self, abs_zero]
  norm_num

/-- The total clamped smoothed weight a depth cell receives in the forward
stencil equals the GridGradient kernel's overridden depth weight, for every
fractional depth position (also out-of-range ones). -/
lemma fwdCoefS_closed {E : ℤ} (hE : 0 < E) (v : ℚ) {j : ℤ} (hj0 : 0 ≤ j)
    (hjE : j < E) :
    fwdCoefS E v j = bwdCoefZ E v j := by
  have ht0l := floor_half_le v
  have ht0u := lt_floor_half v
  have hEq : (1 : ℚ) ≤ (E : ℚ) := by exact_mod_cast hE
  unfold fwdCoefS bwdCoefZ
  rw [Finset.sum_filter, sum_Ico_two (fun t =>
    if stdClamp t 0 (E - 1) = j then SmoothedLerpWeight ((t : ℚ) + 1/2) v
    else 0) ⌊v - 1/2⌋]
  by_cases hA : ⌊v - 1/2⌋ ≤ -1
  · have hv12 : v < 1/2 := by
      have hq : (⌊v - 1/2⌋ : ℚ) ≤ -1 := by exact_mod_cast hA
      linarith
    rw [stdClamp_of_le_lo (by omega : ⌊v - 1/2⌋ ≤ 0),
      stdClamp_of_le_lo (by omega : ⌊v - 1/2⌋ + 1 ≤ 0)]
    by_cases hj : j = 0
    · subst hj
      rw [if_pos rfl, if_pos rfl, if_pos (Or.inl ⟨rfl, hv12⟩),
        cast_succ_half]
      exact smoothed_pair v
    · rw [if_neg (fun h => hj h.symm), if_neg (fun h => hj h.symm),
        if_neg ?hcond]
      case hcond =>
        rintro (⟨h0, _⟩ | ⟨hE1, hgt⟩)
        · exact hj h0
        · have hj1 : 1 ≤ j := by omega
          have : (1 : ℚ) ≤ (j : ℚ) := by exact_mod_cast hj1
          have hEj : (j : ℚ) = (E : ℚ) - 1 := by
            rw [hE1]
            push_cast
            ring
          linarith
      have hj1 : (1 : ℚ) ≤ (j : ℚ) := by
        have : 1 ≤ j := by omega
        exact_mod_cast this
      rw [smoothed_zero_of_le_sub (by linarith)]
      norm_num
  · by_cases hB : E - 1 ≤ ⌊v - 1/2⌋
    · have hvlo : (E : ℚ) - 1/2 ≤ v := by
        have hq : ((E - 1 : ℤ) : ℚ) ≤ (⌊v - 1/2⌋ : ℚ) := by exact_mod_cast hB
        push_cast at hq
        linarith
      rw [stdClamp_of_hi_le (by omega) hB,
        stdClamp_of_hi_le (by omega) (by omega)]
      by_cases hj : j = E - 1
      · subst hj
        rw [if_pos rfl, if_pos rfl, cast_succ_half]
        rcases eq_or_lt_of_le hvlo with hv | hv
        · rw [if_neg ?hcond2]
          case hcond2 =>
            rintro (⟨h0, hlt⟩ | ⟨_, hgt⟩)
            · have hE1' : E = 1 := by omega
              rw [← hv, hE1'] at hlt
              norm_num at hlt
            · exact absurd hgt (by rw [← hv]; exact lt_irrefl _)
          have harg : ((E - 1 : ℤ) : ℚ) + 1/2 = v := by
            rw [← hv]
            push_cast
            ring
          rw [harg, smoothed_self]
          exact smoothed_pair v
        · rw [if_pos (Or.inr ⟨rfl, hv⟩)]
          exact smoothed_pair v
      · have hov : ¬((j = 0 ∧ v < 1/2) ∨
            (j = E - 1 ∧ v > (E : ℚ) - 1/2)) := by
          rintro (⟨h0, hlt⟩ | ⟨hE1, _⟩)
          · linarith
          · exact hj hE1
        rw [if_neg (fun h => hj h.symm), if_neg (fun h => hj h.symm),
          if_neg hov]
        have hj2 : (j : ℚ) ≤ (E : ℚ) - 2 := by
          have h2 : j ≤ E - 2 := by omega
          calc (j : ℚ) ≤ ((E - 2 : ℤ) : ℚ) := by exact_mod_cast h2
            _ = (E : ℚ) - 2 := by push_cast; ring
        rw [smoothed_zero_of_sub_le (by linarith)]
        norm_num
    · have ht00 : 0 ≤ ⌊v - 1/2⌋ := by omega
      have ht02 : ⌊v - 1/2⌋ ≤ E - 2 := by omega
      have htq0 : (0 : ℚ) ≤ (⌊v - 1/2⌋ : ℚ) := by exact_mod_cast ht00
      have htq2 : (⌊v - 1/2⌋ : ℚ) ≤ (E : ℚ) - 2 := by
        calc (⌊v - 1/2⌋ : ℚ) ≤ ((E - 2 : ℤ) : ℚ) := by exact_mod_cast ht02
          _ = (E : ℚ) - 2 := by push_cast; ring
      have hov : ¬((j = 0 ∧ v < 1/2) ∨
          (j = E - 1 ∧ v > (E : ℚ) - 1/2)) := by
        rintro (⟨h0, hlt⟩ | ⟨hE1, hgt⟩)
        · linarith
        · linarith
      rw [stdClamp_of_mem (by omega) (by omega),
        stdClamp_of_mem (by omega) (by omega), if_neg hov]
      by_cases hj : ⌊v - 1/2⌋ = j
      · rw [if_pos hj, if_neg (by omega : ¬ ⌊v - 1/2⌋ + 1 = j), hj]
        ring
      · by_cases hj' : ⌊v - 1/2⌋ + 1 = j
        · rw [if_neg hj, if_pos hj', ← hj']
          ring
        · rw [if_neg hj, if_neg hj',
            smoothed_tap_vanish (by rw [Finset.mem_Ico]; omega)]
          norm_num

/-- Closed form of the backward window coefficient: the pixel's own weight,
plus (at the first and last cells only) the weight of its single mirrored
phantom pixel. -/
lemma bwdCoefL_closed {E P : ℤ} (hE : 0 < E) (hP : 0 < P) {j p : ℤ}
    (hj0 : 0 ≤ j) (hjE : j < E) (hp0 : 0 ≤ p) (hpP : p < P) :
    bwdCoefL E P j p =
      LerpWeight ((j : ℚ) + 1/2) (((p : ℚ) + 1/2) / ((P : ℚ) / (E : ℚ))) +
      (if j = 0 then LerpWeight ((j : ℚ) + 1/2)
        ((((-1 - p : ℤ) : ℚ) + 1/2) / ((P : ℚ) / (E : ℚ))) else 0) +
      (if j = E - 1 then LerpWeight ((j : ℚ) + 1/2)
        ((((2 * P - 1 - p : ℤ) : ℚ) + 1/2) / ((P : ℚ) / (E : ℚ)))
       else 0) := by
  have hsq : (0 : ℚ) < (P : ℚ) / (E : ℚ) := by positivity
  have hEq : (1 : ℚ) ≤ (E : ℚ) := by exact_mod_cast hE
  have hPq : (1 : ℚ) ≤ (P : ℚ) := by exact_mod_cast hP
  set w : ℤ → ℚ :=
    fun i => LerpWeight ((j : ℚ) + 1/2)
      (((i : ℚ) + 1/2) / ((P : ℚ) / (E : ℚ))) with hw
  set win : Finset ℤ :=
    Finset.Ico ⌊(P : ℚ) / (E : ℚ) * ((j : ℚ) + 1/2 - 1)⌋
      ⌈(P : ℚ) / (E : ℚ) * ((j : ℚ) + 1/2 + 1)⌉ with hwin
  -- any contributing pixel index with nonzero weight is one of the three
  -- candidates
  have hrange : ∀ i : ℤ, w i ≠ 0 → -P ≤ i ∧ i < 2 * P := by
    intro i hi
    have hsupp := lerp_support hi
    rw [abs_lt] at hsupp
    have hjq0 : (0 : ℚ) ≤ (j : ℚ) := by exact_mod_cast hj0
    have hjqE : (j : ℚ) ≤ (E : ℚ) - 1 := by
      have h1 : j ≤ E - 1 := by omega
      calc (j : ℚ) ≤ ((E - 1 : ℤ) : ℚ) := by exact_mod_cast h1
        _ = (E : ℚ) - 1 := by push_cast; ring
    have hval : (i : ℚ) + 1/2 =
        (((i : ℚ) + 1/2) / ((P : ℚ) / (E : ℚ))) * ((P : ℚ) / (E : ℚ)) :=
      (div_mul_cancel₀ _ (by positivity)).symm
    have hs_le : (P : ℚ) / (E : ℚ) ≤ (P : ℚ) := by
      rw [div_le_iff₀ (by linarith)]
      nlinarith
    constructor
    · -- lower bound
      have hgt : ((i : ℚ) + 1/2) / ((P : ℚ) / (E : ℚ)) > -(1/2) := by
        linarith [hsupp.1]
      have : (i : ℚ) + 1/2 > -(1/2) * ((P : ℚ) / (E : ℚ)) := by
        rw [hval]
        exact mul_lt_mul_of_pos_right hgt hsq
      have hPcast : -(P : ℚ) < (i : ℚ) + 1 := by nlinarith
      have : (-P : ℤ) < i + 1 := by exact_mod_cast hPcast
      omega
    · -- upper bound
      have hlt : ((i : ℚ) + 1/2) / ((P : ℚ) / (E : ℚ)) < (E : ℚ) + 1/2 := by
        linarith [hsupp.2]
      have : (i : ℚ) + 1/2 < ((E : ℚ) + 1/2) * ((P : ℚ) / (E : ℚ)) := by
        rw [hval]
        exact mul_lt_mul_of_pos_right hlt hsq
      have hid : ((E : ℚ) + 1/2) * ((P : ℚ) / (E : ℚ)) =
          (P : ℚ) + (P : ℚ) / (E : ℚ) * (1/2) := by
        field_simp
        ring
      have hPcast : (i : ℚ) < 2 * (P : ℚ) := by nlinarith
      exact_mod_cast hPcast
  have hcand : ∀ i ∈ win.filter (fun i => MirrorBoundary i P = p),
      i ∉ ({p, -1 - p, 2 * P - 1 - p} : Finset ℤ) → w i = 0 := by
    intro i hi hnot
    rw [Finset.mem_filter] at hi
    by_contra hwne
    rcases hrange i hwne with ⟨hlo, hhi⟩
    simp only [Finset.mem_insert, Finset.mem_singleton] at hnot
    push_neg at hnot
    rcases lt_or_ge i 0 with hneg | hpos
    · have := mirrorBoundary_of_neg (by omega : -P ≤ i) hneg
      omega
    · rcases lt_or_ge i P with hin | hup
      · have := mirrorBoundary_of_mem hpos hin
        omega
      · have := mirrorBoundary_of_high hup hhi
        omega
  have step1 : bwdCoefL E P j p =
      ∑ i ∈ (win.filter (fun i => MirrorBoundary i P = p)) ∩
        {p, -1 - p, 2 * P - 1 - p}, w i := by
    unfold bwdCoefL
    rw [← hwin]
    exact (Finset.sum_subset (Finset.inter_subset_left)
      (fun i hi hni => hcand i hi (fun ht =>
        hni (Finset.mem_inter.2 ⟨hi, ht⟩)))).symm
  have step2 : ∑ i ∈ (win.filter (fun i => MirrorBoundary i P = p)) ∩
        ({p, -1 - p, 2 * P - 1 - p} : Finset ℤ), w i =
      ∑ i ∈ ({p, -1 - p, 2 * P - 1 - p} : Finset ℤ),
        (if i ∈ win.filter (fun i => MirrorBoundary i P = p) then w i
         else 0) := by
    rw [Finset.sum_ite_mem, Finset.inter_comm]
  have hd1 : p ≠ -1 - p := by omega
  have hd2 : p ≠ 2 * P - 1 - p := by omega
  have hd3 : (-1 - p) ≠ 2 * P - 1 - p := by omega
  have step3 : ∑ i ∈ ({p, -1 - p, 2 * P - 1 - p} : Finset ℤ),
      (if i ∈ win.filter (fun i => MirrorBoundary i P = p) then w i
       else 0) =
      (if p ∈ win.filter (fun i => MirrorBoundary i P = p) then w p else 0) +
      (if (-1 - p) ∈ win.filter (fun i => MirrorBoundary i P = p)
       then w (-1 - p) else 0) +
      (if (2 * P - 1 - p) ∈ win.filter (fun i => MirrorBoundary i P = p)
       then w (2 * P - 1 - p) else 0) := by
    rw [Finset.sum_insert (by
        simp only [Finset.mem_insert, Finset.mem_singleton]
        push_neg
        exact ⟨hd1, hd2⟩),
      Finset.sum_insert (by
        simp only [Finset.mem_singleton]
        exact hd3),
      Finset.sum_singleton]
    ring
  have hmir_p : MirrorBoundary p P = p := mirrorBoundary_of_mem hp0 hpP
  have hmir_m : MirrorBoundary (-1 - p) P = p := by
    rw [mirrorBoundary_of_neg (by omega) (by omega)]
    ring
  have hmir_h : MirrorBoundary (2 * P - 1 - p) P = p := by
    rw [mirrorBoundary_of_high (by omega) (by omega)]
    ring
  have term1 : (if p ∈ win.filter (fun i => MirrorBoundary i P = p)
      then w p else 0) = w p := by
    by_cases hmem : p ∈ win
    · rw [if_pos (show p ∈ win.filter (fun i => MirrorBoundary i P = p)
        from Finset.mem_filter.2 ⟨hmem, hmir_p⟩)]
    · rw [if_neg (fun hin => hmem (Finset.mem_filter.1 hin).1)]
      by_contra hne
      exact hmem (hwin ▸ mem_window_of_lerp_ne hE hP (fun h => hne h.symm))
  have term2 : (if (-1 - p) ∈ win.filter (fun i => MirrorBoundary i P = p)
      then w (-1 - p) else 0) = (if j = 0 then w (-1 - p) else 0) := by
    by_cases hj : j = 0
    · rw [if_pos hj]
      by_cases hmem : (-1 - p) ∈ win
      · rw [if_pos (show (-1 - p) ∈ win.filter
          (fun i => MirrorBoundary i P = p)
          from Finset.mem_filter.2 ⟨hmem, hmir_m⟩)]
      · rw [if_neg (fun hin => hmem (Finset.mem_filter.1 hin).1)]
        by_contra hne
        exact hmem (hwin ▸ mem_window_of_lerp_ne hE hP
          (fun h => hne h.symm))
    · rw [if_neg hj, if_neg ?hnot]
      case hnot =>
        intro hin
        have hmem := (Finset.mem_filter.1 hin).1
        rw [hwin, Finset.mem_Ico] at hmem
        have hlo := window_lo_nonneg hE hP (by omega : 1 ≤ j)
        omega
  have term3 : (if (2 * P - 1 - p) ∈
        win.filter (fun i => MirrorBoundary i P = p)
      then w (2 * P - 1 - p) else 0) =
      (if j = E - 1 then w (2 * P - 1 - p) else 0) := by
    by_cases hj : j = E - 1
    · rw [if_pos hj]
      by_cases hmem : (2 * P - 1 - p) ∈ win
      · rw [if_pos (show (2 * P - 1 - p) ∈ win.filter
          (fun i => MirrorBoundary i P = p)
          from Finset.mem_filter.2 ⟨hmem, hmir_h⟩)]
      · rw [if_neg (fun hin => hmem (Finset.mem_filter.1 hin).1)]
        by_contra hne
        exact hmem (hwin ▸ mem_window_of_lerp_ne hE hP
          (fun h => hne h.symm))
    · rw [if_neg hj, if_neg ?hnot2]
      case hnot2 =>
        intro hin
        have hmem := (Finset.mem_filter.1 hin).1
        rw [hwin, Finset.mem_Ico] at hmem
        have hhi := window_hi_le hE hP (by omega : j ≤ E - 2)
        omega
  rw [step1, step2, step3, term1, term2, term3]

lemma lerp_reflect_neg (c q : ℚ) : LerpWeight c (-q) = LerpWeight (-c) q := by
  unfold LerpWeight
  rw [show -q - c = -(q - -c) by ring, abs_neg]

lemma lerp_reflect_at (m c q : ℚ) :
    LerpWeight c (m - q) = LerpWeight (m - c) q := by
  unfold LerpWeight
  rw [show m - q - c = -(q - (m - c)) by ring, abs_neg]

/-- Spatial-axis adjointness: the mirrored backward window coefficient equals
the clamped forward stencil coefficient, cell by cell and pixel by pixel. -/
lemma coef_axis_eq {E P : ℤ} (hE : 0 < E) (hP : 0 < P) {j p : ℤ}
    (hj0 : 0 ≤ j) (hjE : j < E) (hp0 : 0 ≤ p) (hpP : p < P) :
    bwdCoefL E P j p =
      fwdCoefL E (((p : ℚ) + 1/2) * ((E : ℚ) / (P : ℚ))) j := by
  have hEq : (1 : ℚ) ≤ (E : ℚ) := by exact_mod_cast hE
  have hPq : (1 : ℚ) ≤ (P : ℚ) := by exact_mod_cast hP
  have hpq0 : (0 : ℚ) ≤ (p : ℚ) := by exact_mod_cast hp0
  have hpqP : (p : ℚ) ≤ (P : ℚ) - 1 := by
    have h1 : p ≤ P - 1 := by omega
    calc (p : ℚ) ≤ ((P - 1 : ℤ) : ℚ) := by exact_mod_cast h1
      _ = (P : ℚ) - 1 := by push_cast; ring
  have hv0 : 0 < ((p : ℚ) + 1/2) * ((E : ℚ) / (P : ℚ)) := by positivity
  have hvE : ((p : ℚ) + 1/2) * ((E : ℚ) / (P : ℚ)) < (E : ℚ) := by
    have hstep : ((p : ℚ) + 1/2) * ((E : ℚ) / (P : ℚ)) <
        (P : ℚ) * ((E : ℚ) / (P : ℚ)) :=
      mul_lt_mul_of_pos_right (by linarith) (by positivity)
    have hid : (P : ℚ) * ((E : ℚ) / (P : ℚ)) = (E : ℚ) := by
      field_simp
    linarith
  rw [bwdCoefL_closed hE hP hj0 hjE hp0 hpP,
    fwdCoefL_closed hE hv0 hvE hj0 hjE]
  have harg1 : ((p : ℚ) + 1/2) / ((P : ℚ) / (E : ℚ)) =
      ((p : ℚ) + 1/2) * ((E : ℚ) / (P : ℚ)) := by
    rw [div_div_eq_mul_div, mul_div_assoc]
  congr 1
  · congr 1
    · rw [harg1]
    · by_cases hj : j = 0
      · rw [if_pos hj, if_pos hj]
        have harg2 : (((-1 - p : ℤ) : ℚ) + 1/2) / ((P : ℚ) / (E : ℚ)) =
            -(((p : ℚ) + 1/2) * ((E : ℚ) / (P : ℚ))) := by
          push_cast
          field_simp
          ring
        rw [harg2, lerp_reflect_neg, hj]
        norm_num
      · rw [if_neg hj, if_neg hj]
  · by_cases hj : j = E - 1
    · rw [if_pos hj, if_pos hj]
      have harg3 : (((2 * P - 1 - p : ℤ) : ℚ) + 1/2) / ((P : ℚ) / (E : ℚ)) =
          2 * (E : ℚ) - ((p : ℚ) + 1/2) * ((E : ℚ) / (P : ℚ)) := by
        push_cast
        field_simp
        ring
      rw [harg3, lerp_reflect_at, hj]
      congr 1
      push_cast
      ring
    · rw [if_neg hj, if_neg hj]

/-- The forward Slice sample, regrouped as a sum over all grid cells with the
fiberwise coefficients. -/
lemma slice_cellized (grid : ℤ → ℤ → ℤ → ℤ → ℤ → ℚ)
    (guide : ℤ → ℤ → ℤ → ℚ) (D GX GY W H : ℤ) (hD : 0 < D) (hGX : 0 < GX)
    (hGY : 0 < GY) (c x y b : ℤ) :
    BilateralSliceKernelAt grid guide D GX GY W H c x y b =
      ∑ gy ∈ Finset.Ico 0 GY, ∑ gx ∈ Finset.Ico 0 GX, ∑ gz ∈ Finset.Ico 0 D,
        fwdCoefL GY (((y : ℚ) + 1/2) * ((GY : ℚ) / (H : ℚ))) gy *
          fwdCoefL GX (((x : ℚ) + 1/2) * ((GX : ℚ) / (W : ℚ))) gx *
          fwdCoefS D (guide x y b * (D : ℚ)) gz *
          grid c gz gx gy b := by
  have hmz : ∀ t ∈ Finset.Ico ⌊guide x y b * (D : ℚ) - 1/2⌋
      (⌊guide x y b * (D : ℚ) - 1/2⌋ + 2),
      stdClamp t 0 (D - 1) ∈ Finset.Ico 0 D := fun t _ =>
    Finset.mem_Ico.2 ⟨stdClamp_ge t 0 (D - 1), by
      have := stdClamp_le (v := t) (show (0 : ℤ) ≤ D - 1 by omega)
      omega⟩
  have hmx : ∀ t ∈ Finset.Ico ⌊((x : ℚ) + 1/2) * ((GX : ℚ) / (W : ℚ)) - 1/2⌋
      (⌊((x : ℚ) + 1/2) * ((GX : ℚ) / (W : ℚ)) - 1/2⌋ + 2),
      stdClamp t 0 (GX - 1) ∈ Finset.Ico 0 GX := fun t _ =>
    Finset.mem_Ico.2 ⟨stdClamp_ge t 0 (GX - 1), by
      have := stdClamp_le (v := t) (show (0 : ℤ) ≤ GX - 1 by omega)
      omega⟩
  have hmy : ∀ t ∈ Finset.Ico ⌊((y : ℚ) + 1/2) * ((GY : ℚ) / (H : ℚ)) - 1/2⌋
      (⌊((y : ℚ) + 1/2) * ((GY : ℚ) / (H : ℚ)) - 1/2⌋ + 2),
      stdClamp t 0 (GY - 1) ∈ Finset.Ico 0 GY := fun t _ =>
    Finset.mem_Ico.2 ⟨stdClamp_ge t 0 (GY - 1), by
      have := stdClamp_le (v := t) (show (0 : ℤ) ≤ GY - 1 by omega)
      omega⟩
  unfold BilateralSliceKernelAt sliceCoords
  dsimp only
  calc
    ∑ ty ∈ Finset.Ico ⌊((y : ℚ) + 1/2) * ((GY : ℚ) / (H : ℚ)) - 1/2⌋
        (⌊((y : ℚ) + 1/2) * ((GY : ℚ) / (H : ℚ)) - 1/2⌋ + 2),
      ∑ tx ∈ Finset.Ico ⌊((x : ℚ) + 1/2) * ((GX : ℚ) / (W : ℚ)) - 1/2⌋
          (⌊((x : ℚ) + 1/2) * ((GX : ℚ) / (W : ℚ)) - 1/2⌋ + 2),
        ∑ tz ∈ Finset.Ico ⌊guide x y b * (D : ℚ) - 1/2⌋
            (⌊guide x y b * (D : ℚ) - 1/2⌋ + 2),
          LerpWeight ((tx : ℚ) + 1/2)
              (((x : ℚ) + 1/2) * ((GX : ℚ) / (W : ℚ))) *
            LerpWeight ((ty : ℚ) + 1/2)
              (((y : ℚ) + 1/2) * ((GY : ℚ) / (H : ℚ))) *
            SmoothedLerpWeight ((tz : ℚ) + 1/2) (guide x y b * (D : ℚ)) *
            grid c (stdClamp tz 0 (D - 1)) (stdClamp tx 0 (GX - 1))
              (stdClamp ty 0 (GY - 1)) b
      = ∑ ty ∈ Finset.Ico ⌊((y : ℚ) + 1/2) * ((GY : ℚ) / (H : ℚ)) - 1/2⌋
          (⌊((y : ℚ) + 1/2) * ((GY : ℚ) / (H : ℚ)) - 1/2⌋ + 2),
        LerpWeight ((ty : ℚ) + 1/2)
            (((y : ℚ) + 1/2) * ((GY : ℚ) / (H : ℚ))) *
          (∑ tx ∈ Finset.Ico
              ⌊((x : ℚ) + 1/2) * ((GX : ℚ) / (W : ℚ)) - 1/2⌋
              (⌊((x : ℚ) + 1/2) * ((GX : ℚ) / (W : ℚ)) - 1/2⌋ + 2),
            LerpWeight ((tx : ℚ) + 1/2)
                (((x : ℚ) + 1/2) * ((GX : ℚ) / (W : ℚ))) *
              (∑ tz ∈ Finset.Ico ⌊guide x y b * (D : ℚ) - 1/2⌋
                  (⌊guide x y b * (D : ℚ) - 1/2⌋ + 2),
                SmoothedLerpWeight ((tz : ℚ) + 1/2)
                    (guide x y b * (D : ℚ)) *
                  grid c (stdClamp tz 0 (D - 1)) (stdClamp tx 0 (GX - 1))
                    (stdClamp ty 0 (GY - 1)) b)) := by
        refine Finset.sum_congr rfl fun ty _ => ?_
        rw [Finset.mul_sum]
        refine Finset.sum_congr rfl fun tx _ => ?_
        rw [Finset.mul_sum, Finset.mul_sum]
        exact Finset.sum_congr rfl fun tz _ => by ring
    _ = ∑ ty ∈ Finset.Ico ⌊((y : ℚ) + 1/2) * ((GY : ℚ) / (H : ℚ)) - 1/2⌋
          (⌊((y : ℚ) + 1/2) * ((GY : ℚ) / (H : ℚ)) - 1/2⌋ + 2),
        LerpWeight ((ty : ℚ) + 1/2)
            (((y : ℚ) + 1/2) * ((GY : ℚ) / (H : ℚ))) *
          (∑ tx ∈ Finset.Ico
              ⌊((x : ℚ) + 1/2) * ((GX : ℚ) / (W : ℚ)) - 1/2⌋
              (⌊((x : ℚ) + 1/2) * ((GX : ℚ) / (W : ℚ)) - 1/2⌋ + 2),
            LerpWeight ((tx : ℚ) + 1/2)
                (((x : ℚ) + 1/2) * ((GX : ℚ) / (W : ℚ))) *
              (∑ gz ∈ Finset.Ico 0 D,
                fwdCoefS D (guide x y b * (D : ℚ)) gz *
                  grid c gz (stdClamp tx 0 (GX - 1))
                    (stdClamp ty 0 (GY - 1)) b)) := by
        refine Finset.sum_congr rfl fun ty _ => ?_
        refine congrArg _ (Finset.sum_congr rfl fun tx _ => ?_)
        refine congrArg _ ?_
        exact fiber_sum _ (Finset.Ico 0 D) (fun t => stdClamp t 0 (D - 1))
          hmz (fun tz => SmoothedLerpWeight ((tz : ℚ) + 1/2)
            (guide x y b * (D : ℚ)))
          (fun u => grid c u (stdClamp tx 0 (GX - 1))
            (stdClamp ty 0 (GY - 1)) b)
    _ = ∑ ty ∈ Finset.Ico ⌊((y : ℚ) + 1/2) * ((GY : ℚ) / (H : ℚ)) - 1/2⌋
          (⌊((y : ℚ) + 1/2) * ((GY : ℚ) / (H : ℚ)) - 1/2⌋ + 2),
        LerpWeight ((ty : ℚ) + 1/2)
            (((y : ℚ) + 1/2) * ((GY : ℚ) / (H : ℚ))) *
          (∑ gx ∈ Finset.Ico 0 GX,
            fwdCoefL GX (((x : ℚ) + 1/2) * ((GX : ℚ) / (W : ℚ))) gx *
              (∑ gz ∈ Finset.Ico 0 D,
                fwdCoefS D (guide x y b * (D : ℚ)) gz *
                  grid c gz gx (stdClamp ty 0 (GY - 1)) b)) := by
        refine Finset.sum_congr rfl fun ty _ => ?_
        refine congrArg _ ?_
        exact fiber_sum _ (Finset.Ico 0 GX) (fun t => stdClamp t 0 (GX - 1))
          hmx (fun tx => LerpWeight ((tx : ℚ) + 1/2)
            (((x : ℚ) + 1/2) * ((GX : ℚ) / (W : ℚ))))
          (fun u => ∑ gz ∈ Finset.Ico 0 D,
            fwdCoefS D (guide x y b * (D : ℚ)) gz *
              grid c gz u (stdClamp ty 0 (GY - 1)) b)
    _ = ∑ gy ∈ Finset.Ico 0 GY,
        fwdCoefL GY (((y : ℚ) + 1/2) * ((GY : ℚ) / (H : ℚ))) gy *
          (∑ gx ∈ Finset.Ico 0 GX,
            fwdCoefL GX (((x : ℚ) + 1/2) * ((GX : ℚ) / (W : ℚ))) gx *
              (∑ gz ∈ Finset.Ico 0 D,
                fwdCoefS D (guide x y b * (D : ℚ)) gz *
                  grid c gz gx gy b)) := by
        exact fiber_sum _ (Finset.Ico 0 GY) (fun t => stdClamp t 0 (GY - 1))
          hmy (fun ty => LerpWeight ((ty : ℚ) + 1/2)
            (((y : ℚ) + 1/2) * ((GY : ℚ) / (H : ℚ))))
          (fun u => ∑ gx ∈ Finset.Ico 0 GX,
            fwdCoefL GX (((x : ℚ) + 1/2) * ((GX : ℚ) / (W : ℚ))) gx *
              (∑ gz ∈ Finset.Ico 0 D,
                fwdCoefS D (guide x y b * (D : ℚ)) gz *
                  grid c gz gx u b))
    _ = ∑ gy ∈ Finset.Ico 0 GY, ∑ gx ∈ Finset.Ico 0 GX,
          ∑ gz ∈ Finset.Ico 0 D,
        fwdCoefL GY (((y : ℚ) + 1/2) * ((GY : ℚ) / (H : ℚ))) gy *
          fwdCoefL GX (((x : ℚ) + 1/2) * ((GX : ℚ) / (W : ℚ))) gx *
          fwdCoefS D (guide x y b * (D : ℚ)) gz *
          grid c gz gx gy b := by
        refine Finset.sum_congr rfl fun gy _ => ?_
        rw [Finset.mul_sum]
        refine Finset.sum_congr rfl fun gx _ => ?_
        rw [Finset.mul_sum, Finset.mul_sum]
        exact Finset.sum_congr rfl fun gz _ => by ring

/-- The backward GridGradient window sum, regrouped as a sum over all actual
pixels with the fiberwise mirrored coefficients. -/
lemma gridgrad_pixelized (guide : ℤ → ℤ → ℤ → ℚ)
    (codomain_tangent : ℤ → ℤ → ℤ → ℤ → ℚ) (D GX GY W H : ℤ) (hW : 0 < W)
    (hH : 0 < H) (gc gz gx gy b : ℤ) :
    BilateralSliceGridGradKernelAt guide codomain_tangent D GX GY W H
        gc gz gx gy b =
      ∑ py ∈ Finset.Ico 0 H, ∑ px ∈ Finset.Ico 0 W,
        bwdCoefL GY H gy py * bwdCoefL GX W gx px *
          bwdCoefZ D (guide px py b * (D : ℚ)) gz *
          codomain_tangent gc px py b := by
  have hmw : ∀ i ∈ Finset.Ico ⌊(W : ℚ) / (GX : ℚ) * ((gx : ℚ) + 1/2 - 1)⌋
      ⌈(W : ℚ) / (GX : ℚ) * ((gx : ℚ) + 1/2 + 1)⌉,
      MirrorBoundary i W ∈ Finset.Ico 0 W := fun i _ =>
    Finset.mem_Ico.2 ⟨mirrorBoundary_nonneg hW, mirrorBoundary_lt hW⟩
  have hmh : ∀ i ∈ Finset.Ico ⌊(H : ℚ) / (GY : ℚ) * ((gy : ℚ) + 1/2 - 1)⌋
      ⌈(H : ℚ) / (GY : ℚ) * ((gy : ℚ) + 1/2 + 1)⌉,
      MirrorBoundary i H ∈ Finset.Ico 0 H := fun i _ =>
    Finset.mem_Ico.2 ⟨mirrorBoundary_nonneg hH, mirrorBoundary_lt hH⟩
  have hz : ∀ u v : ℤ,
      (if (gz = 0 ∧ guide u v b * (D : ℚ) < 1/2) ∨
          (gz = D - 1 ∧ guide u v b * (D : ℚ) > (D : ℚ) - 1/2) then 1
       else SmoothedLerpWeight ((gz : ℚ) + 1/2) (guide u v b * (D : ℚ))) =
      bwdCoefZ D (guide u v b * (D : ℚ)) gz := fun u v => rfl
  unfold BilateralSliceGridGradKernelAt
  simp only [hz]
  calc
    ∑ ry ∈ Finset.Ico ⌊(H : ℚ) / (GY : ℚ) * ((gy : ℚ) + 1/2 - 1)⌋
        ⌈(H : ℚ) / (GY : ℚ) * ((gy : ℚ) + 1/2 + 1)⌉,
      ∑ rx ∈ Finset.Ico ⌊(W : ℚ) / (GX : ℚ) * ((gx : ℚ) + 1/2 - 1)⌋
          ⌈(W : ℚ) / (GX : ℚ) * ((gx : ℚ) + 1/2 + 1)⌉,
        bwdCoefZ D (guide (MirrorBoundary rx W) (MirrorBoundary ry H) b *
            (D : ℚ)) gz *
          LerpWeight ((gx : ℚ) + 1/2)
            (((rx : ℚ) + 1/2) / ((W : ℚ) / (GX : ℚ))) *
          LerpWeight ((gy : ℚ) + 1/2)
            (((ry : ℚ) + 1/2) / ((H : ℚ) / (GY : ℚ))) *
          codomain_tangent gc (MirrorBoundary rx W) (MirrorBoundary ry H) b
      = ∑ ry ∈ Finset.Ico ⌊(H : ℚ) / (GY : ℚ) * ((gy : ℚ) + 1/2 - 1)⌋
          ⌈(H : ℚ) / (GY : ℚ) * ((gy : ℚ) + 1/2 + 1)⌉,
        ∑ rx ∈ Finset.Ico ⌊(W : ℚ) / (GX : ℚ) * ((gx : ℚ) + 1/2 - 1)⌋
            ⌈(W : ℚ) / (GX : ℚ) * ((gx : ℚ) + 1/2 + 1)⌉,
          LerpWeight ((gx : ℚ) + 1/2)
              (((rx : ℚ) + 1/2) / ((W : ℚ) / (GX : ℚ))) *
            (bwdCoefZ D (guide (MirrorBoundary rx W) (MirrorBoundary ry H) b
                * (D : ℚ)) gz *
              (LerpWeight ((gy : ℚ) + 1/2)
                  (((ry : ℚ) + 1/2) / ((H : ℚ) / (GY : ℚ))) *
                codomain_tangent gc (MirrorBoundary rx W)
                  (MirrorBoundary ry H) b)) :=
        Finset.sum_congr rfl fun ry _ => Finset.sum_congr rfl fun rx _ => by
          ring
    _ = ∑ ry ∈ Finset.Ico ⌊(H : ℚ) / (GY : ℚ) * ((gy : ℚ) + 1/2 - 1)⌋
          ⌈(H : ℚ) / (GY : ℚ) * ((gy : ℚ) + 1/2 + 1)⌉,
        ∑ px ∈ Finset.Ico 0 W,
          bwdCoefL GX W gx px *
            (bwdCoefZ D (guide px (MirrorBoundary ry H) b * (D : ℚ)) gz *
              (LerpWeight ((gy : ℚ) + 1/2)
                  (((ry : ℚ) + 1/2) / ((H : ℚ) / (GY : ℚ))) *
                codomain_tangent gc px (MirrorBoundary ry H) b)) :=
        Finset.sum_congr rfl fun ry _ =>
          fiber_sum _ (Finset.Ico 0 W) (fun i => MirrorBoundary i W) hmw
            (fun rx => LerpWeight ((gx : ℚ) + 1/2)
              (((rx : ℚ) + 1/2) / ((W : ℚ) / (GX : ℚ))))
            (fun u => bwdCoefZ D (guide u (MirrorBoundary ry H) b * (D : ℚ))
                gz *
              (LerpWeight ((gy : ℚ) + 1/2)
                  (((ry : ℚ) + 1/2) / ((H : ℚ) / (GY : ℚ))) *
                codomain_tangent gc u (MirrorBoundary ry H) b))
    _ = ∑ ry ∈ Finset.Ico ⌊(H : ℚ) / (GY : ℚ) * ((gy : ℚ) + 1/2 - 1)⌋
          ⌈(H : ℚ) / (GY : ℚ) * ((gy : ℚ) + 1/2 + 1)⌉,
        LerpWeight ((gy : ℚ) + 1/2)
            (((ry : ℚ) + 1/2) / ((H : ℚ) / (GY : ℚ))) *
          (∑ px ∈ Finset.Ico 0 W,
            bwdCoefL GX W gx px *
              (bwdCoefZ D (guide px (MirrorBoundary ry H) b * (D : ℚ)) gz *
                codomain_tangent gc px (MirrorBoundary ry H) b)) := by
        refine Finset.sum_congr rfl fun ry _ => ?_
        rw [Finset.mul_sum]
        exact Finset.sum_congr rfl fun px _ => by ring
    _ = ∑ py ∈ Finset.Ico 0 H,
        bwdCoefL GY H gy py *
          (∑ px ∈ Finset.Ico 0 W,
            bwdCoefL GX W gx px *
              (bwdCoefZ D (guide px py b * (D : ℚ)) gz *
                codomain_tangent gc px py b)) :=
        fiber_sum _ (Finset.Ico 0 H) (fun i => MirrorBoundary i H) hmh
          (fun ry => LerpWeight ((gy : ℚ) + 1/2)
            (((ry : ℚ) + 1/2) / ((H : ℚ) / (GY : ℚ))))
          (fun v => ∑ px ∈ Finset.Ico 0 W,
            bwdCoefL GX W gx px *
              (bwdCoefZ D (guide px v b * (D : ℚ)) gz *
                codomain_tangent gc px v b))
    _ = ∑ py ∈ Finset.Ico 0 H, ∑ px ∈ Finset.Ico 0 W,
        bwdCoefL GY H gy py * bwdCoefL GX W gx px *
          bwdCoefZ D (guide px py b * (D : ℚ)) gz *
          codomain_tangent gc px py b := by
        refine Finset.sum_congr rfl fun py _ => ?_
        rw [Finset.mul_sum]
        exact Finset.sum_congr rfl fun px _ => by ring

/-- Inner product of two output-shaped arrays over the coordinate box
`C × W × H × B` (claim C4's pairing on the output side). -/
def dotOut (ct out : ℤ → ℤ → ℤ → ℤ → ℚ) (C W H B : ℤ) : ℚ :=
  ∑ b ∈ Finset.Ico 0 B, ∑ c ∈ Finset.Ico 0 C, ∑ y ∈ Finset.Ico 0 H,
    ∑ x ∈ Finset.Ico 0 W, ct c x y b * out c x y b

/-- Inner product of two grid-shaped arrays over the coordinate box
`C × D × GX × GY × B` (claim C4's pairing on the grid side). -/
def dotGrid (grid gg : ℤ → ℤ → ℤ → ℤ → ℤ → ℚ) (C D GX GY B : ℤ) : ℚ :=
  ∑ b ∈ Finset.Ico 0 B, ∑ gc ∈ Finset.Ico 0 C, ∑ gy ∈ Finset.Ico 0 GY,
    ∑ gx ∈ Finset.Ico 0 GX, ∑ gz ∈ Finset.Ico 0 D,
      grid gc gz gx gy b * gg gc gz gx gy b

lemma sum_swap_blocks (s1 s2 s3 t1 t2 : Finset ℤ)
    (f : ℤ → ℤ → ℤ → ℤ → ℤ → ℚ) :
    ∑ a ∈ s1, ∑ b ∈ s2, ∑ c ∈ s3, ∑ d ∈ t1, ∑ e ∈ t2, f a b c d e =
      ∑ d ∈ t1, ∑ e ∈ t2, ∑ a ∈ s1, ∑ b ∈ s2, ∑ c ∈ s3, f a b c d e := by
  calc
    ∑ a ∈ s1, ∑ b ∈ s2, ∑ c ∈ s3, ∑ d ∈ t1, ∑ e ∈ t2, f a b c d e
      = ∑ a ∈ s1, ∑ b ∈ s2, ∑ d ∈ t1, ∑ c ∈ s3, ∑ e ∈ t2, f a b c d e :=
        Finset.sum_congr rfl fun a _ => Finset.sum_congr rfl fun b _ =>
          Finset.sum_comm
    _ = ∑ a ∈ s1, ∑ d ∈ t1, ∑ b ∈ s2, ∑ c ∈ s3, ∑ e ∈ t2, f a b c d e :=
        Finset.sum_congr rfl fun a _ => Finset.sum_comm
    _ = ∑ d ∈ t1, ∑ a ∈ s1, ∑ b ∈ s2, ∑ c ∈ s3, ∑ e ∈ t2, f a b c d e :=
        Finset.sum_comm
    _ = ∑ d ∈ t1, ∑ a ∈ s1, ∑ b ∈ s2, ∑ e ∈ t2, ∑ c ∈ s3, f a b c d e :=
        Finset.sum_congr rfl fun d _ => Finset.sum_congr rfl fun a _ =>
          Finset.sum_congr rfl fun b _ => Finset.sum_comm
    _ = ∑ d ∈ t1, ∑ a ∈ s1, ∑ e ∈ t2, ∑ b ∈ s2, ∑ c ∈ s3, f a b c d e :=
        Finset.sum_congr rfl fun d _ => Finset.sum_congr rfl fun a _ =>
          Finset.sum_comm
    _ = ∑ d ∈ t1, ∑ e ∈ t2, ∑ a ∈ s1, ∑ b ∈ s2, ∑ c ∈ s3, f a b c d e :=
        Finset.sum_congr rfl fun d _ => Finset.sum_comm

/-- C4.  GridGradient is the adjoint of Slice's dependency on the grid: for a
fixed guide the inner product of the sliced output with the codomain tangent
equals the inner product of the grid with the grid gradient. -/
theorem C4_gridgrad_is_adjoint_of_slice (grid : ℤ → ℤ → ℤ → ℤ → ℤ → ℚ)
    (guide : ℤ → ℤ → ℤ → ℚ) (codomain_tangent : ℤ → ℤ → ℤ → ℤ → ℚ)
    (C D GX GY W H B : ℤ) (hC : 0 < C) (hD : 0 < D) (hGX : 0 < GX)
    (hGY : 0 < GY) (hW : 0 < W) (hH : 0 < H) (hB : 0 < B) :
    dotOut codomain_tangent
      (fun c x y b => BilateralSliceKernelAt grid guide D GX GY W H c x y b)
      C W H B =
    dotGrid grid
      (fun gc gz gx gy b => BilateralSliceGridGradKernelAt guide
        codomain_tangent D GX GY W H gc gz gx gy b)
      C D GX GY B := by
  have hLHS : dotOut codomain_tangent
      (fun c x y b => BilateralSliceKernelAt grid guide D GX GY W H c x y b)
      C W H B =
      ∑ b ∈ Finset.Ico 0 B, ∑ c ∈ Finset.Ico 0 C, ∑ y ∈ Finset.Ico 0 H,
        ∑ x ∈ Finset.Ico 0 W, ∑ gy ∈ Finset.Ico 0 GY,
          ∑ gx ∈ Finset.Ico 0 GX, ∑ gz ∈ Finset.Ico 0 D,
        codomain_tangent c x y b *
          (fwdCoefL GY (((y : ℚ) + 1/2) * ((GY : ℚ) / (H : ℚ))) gy *
            fwdCoefL GX (((x : ℚ) + 1/2) * ((GX : ℚ) / (W : ℚ))) gx *
            fwdCoefS D (guide x y b * (D : ℚ)) gz *
            grid c gz gx gy b) := by
    unfold dotOut
    dsimp only
    refine Finset.sum_congr rfl fun b _ => Finset.sum_congr rfl fun c _ =>
      Finset.sum_congr rfl fun y _ => Finset.sum_congr rfl fun x _ => ?_
    rw [slice_cellized grid guide D GX GY W H hD hGX hGY c x y b,
      Finset.mul_sum]
    refine Finset.sum_congr rfl fun gy _ => ?_
    rw [Finset.mul_sum]
    refine Finset.sum_congr rfl fun gx _ => ?_
    rw [Finset.mul_sum]
  have hRHS : dotGrid grid
      (fun gc gz gx gy b => BilateralSliceGridGradKernelAt guide
        codomain_tangent D GX GY W H gc gz gx gy b)
      C D GX GY B =
      ∑ b ∈ Finset.Ico 0 B, ∑ gc ∈ Finset.Ico 0 C, ∑ gy ∈ Finset.Ico 0 GY,
        ∑ gx ∈ Finset.Ico 0 GX, ∑ gz ∈ Finset.Ico 0 D,
          ∑ py ∈ Finset.Ico 0 H, ∑ px ∈ Finset.Ico 0 W,
        grid gc gz gx gy b *
          (fwdCoefL GY (((py : ℚ) + 1/2) * ((GY : ℚ) / (H : ℚ))) gy *
            fwdCoefL GX (((px : ℚ) + 1/2) * ((GX : ℚ) / (W : ℚ))) gx *
            fwdCoefS D (guide px py b * (D : ℚ)) gz *
            codomain_tangent gc px py b) := by
    unfold dotGrid
    dsimp only
    refine Finset.sum_congr rfl fun b _ => Finset.sum_congr rfl fun gc _ =>
      Finset.sum_congr rfl fun gy hgy => Finset.sum_congr rfl fun gx hgx =>
      Finset.sum_congr rfl fun gz hgz => ?_
    rw [Finset.mem_Ico] at hgy hgx hgz
    rw [gridgrad_pixelized guide codomain_tangent D GX GY W H hW hH
      gc gz gx gy b]
    have hinner : ∀ py ∈ Finset.Ico 0 H, ∀ px ∈ Finset.Ico 0 W,
        bwdCoefL GY H gy py * bwdCoefL GX W gx px *
          bwdCoefZ D (guide px py b * (D : ℚ)) gz *
          codomain_tangent gc px py b =
        fwdCoefL GY (((py : ℚ) + 1/2) * ((GY : ℚ) / (H : ℚ))) gy *
          fwdCoefL GX (((px : ℚ) + 1/2) * ((GX : ℚ) / (W : ℚ))) gx *
          fwdCoefS D (guide px py b * (D : ℚ)) gz *
          codomain_tangent gc px py b := by
      intro py hpy px hpx
      rw [Finset.mem_Ico] at hpy hpx
      rw [coef_axis_eq hGY hH hgy.1 hgy.2 hpy.1 hpy.2,
        coef_axis_eq hGX hW hgx.1 hgx.2 hpx.1 hpx.2,
        fwdCoefS_closed hD (guide px py b * (D : ℚ)) hgz.1 hgz.2]
    rw [Finset.mul_sum]
    refine Finset.sum_congr rfl fun py hpy => ?_
    rw [Finset.mul_sum]
    refine Finset.sum_congr rfl fun px hpx => ?_
    rw [hinner py hpy px hpx]
  rw [hLHS, hRHS]
  refine Finset.sum_congr rfl fun b _ => Finset.sum_congr rfl fun c _ => ?_
  rw [sum_swap_blocks (Finset.Ico 0 GY) (Finset.Ico 0 GX) (Finset.Ico 0 D)
    (Finset.Ico 0 H) (Finset.Ico 0 W)
    (fun gy gx gz py px =>
      grid c gz gx gy b *
        (fwdCoefL GY (((py : ℚ) + 1/2) * ((GY : ℚ) / (H : ℚ))) gy *
          fwdCoefL GX (((px : ℚ) + 1/2) * ((GX : ℚ) / (W : ℚ))) gx *
          fwdCoefS D (guide px py b * (D : ℚ)) gz *
          codomain_tangent c px py b))]
  refine Finset.sum_congr rfl fun y _ => Finset.sum_congr rfl fun x _ =>
    Finset.sum_congr rfl fun gy _ => Finset.sum_congr rfl fun gx _ =>
    Finset.sum_congr rfl fun gz _ => by ring

/-- Witness for C4 at a concrete nontrivial instance. -/
theorem C4_gridgrad_is_adjoint_of_slice_witness :
    (0 : ℤ) < 1 ∧ (0 : ℤ) < 2 ∧ (0 : ℤ) < 3 ∧
    dotOut (fun c x y b => (c + x + y + b + 1 : ℚ))
      (fun c x y b => BilateralSliceKernelAt
        (fun c z x y b => (c + 2 * z + x + 3 * y + b : ℚ))
        (fun x y b => (2 * x + y + b : ℚ) / 5) 2 2 1 3 2 c x y b)
      1 3 2 1 =
    dotGrid (fun c z x y b => (c + 2 * z + x + 3 * y + b : ℚ))
      (fun gc gz gx gy b => BilateralSliceGridGradKernelAt
        (fun x y b => (2 * x + y + b : ℚ) / 5)
        (fun c x y b => (c + x + y + b + 1 : ℚ)) 2 2 1 3 2 gc gz gx gy b)
      1 2 2 1 1 :=
  ⟨by norm_num, by norm_num, by norm_num,
   C4_gridgrad_is_adjoint_of_slice
     (fun c z x y b => (c + 2 * z + x + 3 * y + b : ℚ))
     (fun x y b => (2 * x + y + b : ℚ) / 5)
     (fun c x y b => (c + x + y + b + 1 : ℚ))
     1 2 2 1 3 2 1 (by norm_num) (by norm_num) (by norm_num) (by norm_num)
     (by norm_num) (by norm_num) (by norm_num)⟩

end AdjointMachinery
